import Mathlib

/-!
# zcstream: pooled zero-copy read buffers

A shallow embedding of `readstream.go` (the sliding reader `ZeroCopyReadStream`)
and `bufferread.go` (the fixed reader `BufferRead`).

* Go `int` values are `Int` (no length in the program comes near 2^63).
* A `[]byte` value is a `Block`: `none` is the nil slice, `some l` a slice whose
  bytes are `l`.  Blocks carry no spare capacity: `cap b = len b`.
* The byte source and the memory pool are interface values with hidden state.
  Their behaviour is the `Env` record (functions over the hidden state), and the
  reader structures hold the current hidden state in the fields `r` and `memPool`.
* A call returns `Res.ok` with its results, the new reader and the trace of the
  calls it made on its collaborators, `Res.panic` when a slice expression is out
  of range, or `Res.diverge` when the read loop does not finish within the fuel.
* The per-reader mutex is not modelled: calls are sequential.
-/

namespace Zcstream

/-! ## Data model -/

abbrev Byte := UInt8

/-- Go slice of bytes: `none` is nil. -/
abbrev Block := Option (List Byte)

/-- Error values: the sentinels of package io, the size-limit error built by
`fmt.Errorf` in both readers (its two arguments are the values it prints), and
any other error value a byte source may return. -/
inductive Err where
  | EOF
  | ErrUnexpectedEOF
  | ErrShortBuffer
  | sizeLimit (size maxSize : Int)
  | other (code : Nat)
  deriving DecidableEq, Repr

/-- One call made by a reader on a collaborator. -/
inductive Event where
  | read (cap : Nat) (got : List Byte) (err : Option Err)
  | malloc (size : Int) (blk : Block)
  | free (blk : Block)
  deriving DecidableEq, Repr

/-- Behaviour of the collaborators: `Read` is `io.Reader.Read` called with a
destination of the given length, `Malloc` and `Free` are the two methods of the
`MemPool` interface, `defaultMemPool` is the package-level default pool. -/
structure Env (σ π : Type) where
  Read : σ → Nat → List Byte × Option Err × σ
  Malloc : π → Int → Block × π
  Free : π → Block → π
  defaultMemPool : π

/-- Outcome of a call. -/
inductive Res (α : Type) where
  | ok (a : α)
  | panic
  | diverge
  deriving DecidableEq, Repr

/-- What a read call hands back: the returned slice, the returned error, the
reader after the call, and the collaborator calls made, in order. -/
structure Ret (S : Type) where
  data : Block
  err : Option Err
  state : S
  trace : List Event
  deriving DecidableEq, Repr

structure ZeroCopyReadStream (σ π : Type) where
  r : σ
  buf : Block
  dataOffset : Int
  dataSize : Int
  defaultBufSize : Int
  maxSize : Int
  memPool : π
  deriving DecidableEq, Repr

structure BufferRead (σ π : Type) where
  r : σ
  buf : Block
  defaultBufSize : Int
  maxSize : Int
  memPool : π
  deriving DecidableEq, Repr

/-! ## Go slice primitives -/

def blockBytes (b : Block) : List Byte := b.getD []

/-- Go `len(b)`. -/
def len (b : Block) : Int := ((blockBytes b).length : Nat)

/-- Go `b[lo:hi]`; `none` is the run-time panic "slice bounds out of range". -/
def slice (b : Block) (lo hi : Int) : Option Block :=
  if 0 ≤ lo ∧ lo ≤ hi ∧ hi ≤ len b then
    some (b.map fun l => (l.drop lo.toNat).take (hi - lo).toNat)
  else none

/-- Go `b[lo:]`. -/
def sliceFrom (b : Block) (lo : Int) : Option Block := slice b lo (len b)

/-- Go `copy(dst, src)`: the contents of `dst` afterwards. The source is read
as it was before the call, also when the two overlap. -/
def copy (dst src : Block) : Block :=
  dst.map fun d => (blockBytes src).take d.length ++ d.drop (blockBytes src).length

/-- The block after `got` has been stored from index `pos` on. -/
def writeAt (b : Block) (pos : Nat) (got : List Byte) : Block :=
  b.map fun l => l.take pos ++ got ++ l.drop (pos + got.length)

/-! ## Package io -/

/-- Modelled from the spec: the loop of Go's `io.ReadAtLeast` (standard library,
not in the repository), the spec's read-at-least primitive:
`for n < min && err == nil { nn, err = r.Read(buf[n:]); n += nn }`.
`acc` is what has been stored so far (`n = len acc`), `cap` is `len(buf)`.
A reader stores at most as many bytes as the destination holds. `none` means
the loop is still running when the fuel is used up. -/
def readLoop {σ : Type} (Read : σ → Nat → List Byte × Option Err × σ) (cap : Nat) (min : Int) :
    Nat → σ → List Byte → Option Err → List Event →
      Option (List Byte × Option Err × σ × List Event)
  | 0, r, acc, err, tr =>
    if ((acc.length : Nat) : Int) < min ∧ err = none then none else some (acc, err, r, tr)
  | fuel + 1, r, acc, err, tr =>
    if ((acc.length : Nat) : Int) < min ∧ err = none then
      let res := Read r (cap - acc.length)
      let got := res.1.take (cap - acc.length)
      readLoop Read cap min fuel res.2.2 (acc ++ got) res.2.1
        (tr ++ [Event.read (cap - acc.length) got res.2.1])
    else some (acc, err, r, tr)

/-- Modelled from the spec: Go's `io.ReadAtLeast(r, buf, min)` (standard library,
not in the repository) with `cap = len(buf)`: the bytes stored at the start of
`buf`, the error, the source afterwards and the reads made. -/
def ReadAtLeast {σ : Type} (Read : σ → Nat → List Byte × Option Err × σ) (fuel : Nat)
    (r : σ) (cap : Nat) (min : Int) : Option (List Byte × Option Err × σ × List Event) :=
  if ((cap : Nat) : Int) < min then some ([], some Err.ErrShortBuffer, r, [])
  else
    match readLoop Read cap min fuel r [] none [] with
    | none => none
    | some (acc, err, r1, tr) =>
      if min ≤ ((acc.length : Nat) : Int) then some (acc, none, r1, tr)
      else if 0 < acc.length ∧ err = some Err.EOF then
        some (acc, some Err.ErrUnexpectedEOF, r1, tr)
      else some (acc, err, r1, tr)

/-- Modelled from the spec: Go's `io.ReadFull(r, buf)`, which is
`ReadAtLeast(r, buf, len(buf))`. -/
def ReadFull {σ : Type} (Read : σ → Nat → List Byte × Option Err × σ) (fuel : Nat)
    (r : σ) (cap : Nat) : Option (List Byte × Option Err × σ × List Event) :=
  ReadAtLeast Read fuel r cap ((cap : Nat) : Int)

/-! ## readstream.go -/

def NewZeroCopyReadStream {σ π : Type} (env : Env σ π) (r : σ) (defaultBufSize maxSize : Int)
    (memPool : Option π) : ZeroCopyReadStream σ π :=
  { r := r
    buf := none
    dataOffset := 0
    dataSize := 0
    defaultBufSize := if defaultBufSize ≤ 0 then 4096 else defaultBufSize
    maxSize := maxSize
    memPool := match memPool with
      | none => env.defaultMemPool
      | some p => p }

/-- `Close`: the reader afterwards and the pool call made. -/
def ZeroCopyReadStream.Close {σ π : Type} (env : Env σ π) (s : ZeroCopyReadStream σ π) :
    ZeroCopyReadStream σ π × List Event :=
  ({ s with memPool := env.Free s.memPool s.buf, buf := none }, [Event.free s.buf])

/-- Lines 100-120 of `ZeroCopyReadFull`: make room for `size` bytes from
`dataOffset` on, by a new block from the pool or by moving the window to the
front. `none` is a slice panic. -/
def spaceCheck {σ π : Type} (env : Env σ π) (s : ZeroCopyReadStream σ π) (size : Int) :
    Option (ZeroCopyReadStream σ π × List Event) :=
  if size > len s.buf - s.dataOffset then
    if size > len s.buf then
      let nsize := if size > s.defaultBufSize then size else s.defaultBufSize
      let m := env.Malloc s.memPool nsize
      match slice s.buf s.dataOffset (s.dataOffset + s.dataSize) with
      | none => none
      | some w =>
        some ({ s with buf := copy m.1 w, dataOffset := 0, memPool := env.Free m.2 s.buf },
          [Event.malloc nsize m.1, Event.free s.buf])
    else
      match slice s.buf s.dataOffset (s.dataOffset + s.dataSize) with
      | none => none
      | some w => some ({ s with buf := copy s.buf w, dataOffset := 0 }, [])
  else some (s, [])

/-- The pool calls that lines 100-120 of `ZeroCopyReadFull` make, in order, also
when the slice expression of line 110 panics: `Malloc` (line 109) is called
before that slice expression is evaluated, `Free` (line 112) after it. -/
def spaceCheckCalls {σ π : Type} (env : Env σ π) (s : ZeroCopyReadStream σ π) (size : Int) :
    List Event :=
  if size > len s.buf - s.dataOffset then
    if size > len s.buf then
      let nsize := if size > s.defaultBufSize then size else s.defaultBufSize
      let m := env.Malloc s.memPool nsize
      match slice s.buf s.dataOffset (s.dataOffset + s.dataSize) with
      | none => [Event.malloc nsize m.1]
      | some _ => [Event.malloc nsize m.1, Event.free s.buf]
    else []
  else []

/-- Lines 122-136 of `ZeroCopyReadFull`: fill from the source, then serve. -/
def fillAndServe {σ π : Type} (env : Env σ π) (fuel : Nat) (s : ZeroCopyReadStream σ π)
    (size : Int) (tr : List Event) : Res (Ret (ZeroCopyReadStream σ π)) :=
  match sliceFrom s.buf (s.dataOffset + s.dataSize) with
  | none => Res.panic
  | some dstBuf =>
    let rMin := size - s.dataSize
    match ReadAtLeast env.Read fuel s.r (blockBytes dstBuf).length rMin with
    | none => Res.diverge
    | some (got, err, r1, tr2) =>
      let buf1 := writeAt s.buf (s.dataOffset + s.dataSize).toNat got
      let n : Int := ((got.length : Nat) : Int)
      let dataSize1 := s.dataSize + n
      let osize := if dataSize1 + n > size then size else dataSize1 + n
      match slice buf1 s.dataOffset (s.dataOffset + osize) with
      | none => Res.panic
      | some out =>
        Res.ok
          { data := out
            err := err
            state := { s with r := r1, buf := buf1, dataOffset := s.dataOffset + osize,
                              dataSize := dataSize1 - osize }
            trace := tr ++ tr2 }

def ZeroCopyReadFull {σ π : Type} (env : Env σ π) (fuel : Nat) (s : ZeroCopyReadStream σ π)
    (size : Int) : Res (Ret (ZeroCopyReadStream σ π)) :=
  if s.dataSize ≥ size then
    match slice s.buf s.dataOffset (s.dataOffset + size) with
    | none => Res.panic
    | some out =>
      Res.ok
        { data := out
          err := none
          state := { s with dataOffset := s.dataOffset + size, dataSize := s.dataSize - size }
          trace := [] }
  else if s.maxSize > 0 ∧ size > s.maxSize then
    Res.ok { data := none, err := some (Err.sizeLimit size s.maxSize), state := s, trace := [] }
  else
    match spaceCheck env s size with
    | none => Res.panic
    | some (s1, tr1) => fillAndServe env fuel s1 size tr1

/-! ## bufferread.go -/

def NewBufferRead {σ π : Type} (env : Env σ π) (r : σ) (defaultBufSize maxSize : Int)
    (memPool : Option π) : BufferRead σ π :=
  { r := r
    buf := none
    defaultBufSize := if defaultBufSize ≤ 0 then 4096 else defaultBufSize
    maxSize := maxSize
    memPool := match memPool with
      | none => env.defaultMemPool
      | some p => p }

/-- Lines 80-82 of `BufferReadFull`: `n, err := io.ReadFull(r, buf[:size])`,
`return buf[:n], err`. -/
def readInto {σ π : Type} (env : Env σ π) (fuel : Nat) (s : BufferRead σ π) (size : Int)
    (tr : List Event) : Res (Ret (BufferRead σ π)) :=
  match slice s.buf 0 size with
  | none => Res.panic
  | some dst =>
    match ReadFull env.Read fuel s.r (blockBytes dst).length with
    | none => Res.diverge
    | some (got, err, r1, tr2) =>
      let buf1 := writeAt s.buf 0 got
      match slice buf1 0 ((got.length : Nat) : Int) with
      | none => Res.panic
      | some out =>
        Res.ok { data := out, err := err, state := { s with r := r1, buf := buf1 },
                 trace := tr ++ tr2 }

def BufferReadFull {σ π : Type} (env : Env σ π) (fuel : Nat) (s : BufferRead σ π)
    (size : Int) : Res (Ret (BufferRead σ π)) :=
  if len s.buf < size then
    let newSize := if s.defaultBufSize < size then size else s.defaultBufSize
    if s.maxSize > 0 ∧ newSize > s.maxSize then
      Res.ok { data := none, err := some (Err.sizeLimit size s.maxSize), state := s, trace := [] }
    else
      let p1 := env.Free s.memPool s.buf
      let m := env.Malloc p1 newSize
      readInto env fuel { s with buf := m.1, memPool := m.2 } size
        [Event.free s.buf, Event.malloc newSize m.1]
  else readInto env fuel s size []

def BufferRead.Free {σ π : Type} (env : Env σ π) (s : BufferRead σ π) :
    BufferRead σ π × List Event :=
  ({ s with memPool := env.Free s.memPool s.buf, buf := none }, [Event.free s.buf])

def BufferRead.Close {σ π : Type} (env : Env σ π) (s : BufferRead σ π) :
    BufferRead σ π × List Event :=
  BufferRead.Free env s

/-! ## Specification vocabulary -/

/-- The bytes of the window `buf[dataOffset : dataOffset+dataSize]`. -/
def window {σ π : Type} (s : ZeroCopyReadStream σ π) : List Byte :=
  ((blockBytes s.buf).drop s.dataOffset.toNat).take s.dataSize.toNat

/-- The window invariant of the data model. -/
def WindowInv {σ π : Type} (s : ZeroCopyReadStream σ π) : Prop :=
  0 ≤ s.dataOffset ∧ 0 ≤ s.dataSize ∧ s.dataOffset + s.dataSize ≤ len s.buf

instance {σ π : Type} (s : ZeroCopyReadStream σ π) : Decidable (WindowInv s) := by
  unfold WindowInv
  infer_instance

/-- The pool contract: `Malloc(n)` returns a block at least `n` long. -/
def PoolOk {σ π : Type} (env : Env σ π) : Prop :=
  ∀ (p : π) (n : Int), n ≤ len (env.Malloc p n).1

/-- A source that delivers the bytes `rem r` (what it still holds in state `r`)
in non-empty chunks of its own choice, never more than the destination holds,
and reports `io.EOF` with no data once nothing is left. -/
structure SourceOk {σ π : Type} (env : Env σ π) (rem : σ → List Byte) : Prop where
  eof : ∀ (r : σ) (k : Nat), rem r = [] →
    (env.Read r k).1 = [] ∧ (env.Read r k).2.1 = some Err.EOF ∧ rem (env.Read r k).2.2 = []
  chunk : ∀ (r : σ) (k : Nat), rem r ≠ [] → 0 < k →
    (env.Read r k).1 ≠ [] ∧ (env.Read r k).1.length ≤ k ∧ (env.Read r k).2.1 = none ∧
      (env.Read r k).1 ++ rem (env.Read r k).2.2 = rem r

/-- Driver: issue the requests in order on the sliding reader and collect the
slice and the error of every call; `none` when a call panics or diverges. -/
def readAll {σ π : Type} (env : Env σ π) (fuel : Nat) :
    ZeroCopyReadStream σ π → List Int → Option (List (Block × Option Err))
  | _, [] => some []
  | s, n :: ns =>
    match ZeroCopyReadFull env fuel s n with
    | Res.ok ret => (readAll env fuel ret.state ns).map fun l => (ret.data, ret.err) :: l
    | Res.panic => none
    | Res.diverge => none

/-! ## Concrete collaborators used in the examples -/

/-- The source of `readstream_test.go`: `TestRead` over a `bytes.Reader` holding
the remaining bytes; at most 3 bytes per read, end-of-stream once empty. -/
def testRead (s : List Byte) (k : Nat) : List Byte × Option Err × List Byte :=
  match s with
  | [] => ([], some Err.EOF, [])
  | _ => (s.take (min k 3), none, s.drop (min k 3))

/-- A `bytes.Reader` holding the remaining bytes: each read delivers as much as
the destination holds. -/
def bytesRead (s : List Byte) (k : Nat) : List Byte × Option Err × List Byte :=
  match s with
  | [] => ([], some Err.EOF, [])
  | _ => (s.take k, none, s.drop k)

/-- A pool that allocates: `Malloc(n)` returns `n` bytes of value 170, `Free`
discards. -/
def exactMalloc (p : Unit) (n : Int) : Block × Unit := (some (List.replicate n.toNat 170), p)

/-- A pool with size classes of 16 bytes: `Malloc(n)` returns a block whose
length is `n` rounded up to a multiple of 16. -/
def classMalloc (p : Unit) (n : Int) : Block × Unit :=
  (some (List.replicate (((n.toNat + 15) / 16) * 16) 170), p)

def testEnv : Env (List Byte) Unit :=
  { Read := testRead, Malloc := exactMalloc, Free := fun p _ => p, defaultMemPool := () }

def bytesEnv : Env (List Byte) Unit :=
  { Read := bytesRead, Malloc := exactMalloc, Free := fun p _ => p, defaultMemPool := () }

def classEnv : Env (List Byte) Unit :=
  { Read := bytesRead, Malloc := classMalloc, Free := fun p _ => p, defaultMemPool := () }

/-- A sliding reader that holds the window 3,4 at offset 2 of a 4-byte block. -/
def growState : ZeroCopyReadStream (List Byte) Unit :=
  { r := [5, 6, 7, 8, 9], buf := some [1, 2, 3, 4], dataOffset := 2, dataSize := 2,
    defaultBufSize := 4, maxSize := 0, memPool := () }

/-- What `ZeroCopyReadFull(6)` returns on `growState` over the test source. -/
def growRet : Ret (ZeroCopyReadStream (List Byte) Unit) :=
  { data := some [3, 4, 5, 6, 7, 8]
    err := none
    state :=
      { r := [9], buf := some [3, 4, 5, 6, 7, 8], dataOffset := 6, dataSize := 0,
        defaultBufSize := 4, maxSize := 0, memPool := () }
    trace :=
      [Event.malloc 6 (some [170, 170, 170, 170, 170, 170]), Event.free (some [1, 2, 3, 4]),
        Event.read 4 [5, 6, 7] none, Event.read 1 [8] none] }

/-- A fixed reader that holds a 4-byte block. -/
def fixedState : BufferRead (List Byte) Unit :=
  { r := [5, 6, 7, 8, 9], buf := some [1, 2, 3, 4], defaultBufSize := 4, maxSize := 0,
    memPool := () }

/-- What `BufferReadFull(6)` returns on `fixedState` over the test source. -/
def fixedRet : Ret (BufferRead (List Byte) Unit) :=
  { data := some [5, 6, 7, 8, 9]
    err := some Err.ErrUnexpectedEOF
    state :=
      { r := [], buf := some [5, 6, 7, 8, 9, 170], defaultBufSize := 4, maxSize := 0,
        memPool := () }
    trace :=
      [Event.free (some [1, 2, 3, 4]), Event.malloc 6 (some [170, 170, 170, 170, 170, 170]),
        Event.read 6 [5, 6, 7] none, Event.read 3 [8, 9] none,
        Event.read 1 [] (some Err.EOF)] }

/-! ## Reading a trace -/

/-- The pool calls of a trace, in order. -/
def poolCalls (tr : List Event) : List Event :=
  tr.filter fun e =>
    match e with
    | Event.read _ _ _ => false
    | Event.malloc _ _ => true
    | Event.free _ => true

/-- The number of bytes the source delivered in the reads of a trace. -/
def bytesReceived : List Event → Nat
  | [] => 0
  | Event.read _ got _ :: tr => got.length + bytesReceived tr
  | Event.malloc _ _ :: tr => bytesReceived tr
  | Event.free _ :: tr => bytesReceived tr

/-- The error value returned by the last read of a trace (nil when there is no
read). -/
def lastReadErr (tr : List Event) : Option Err :=
  tr.foldl
    (fun acc e =>
      match e with
      | Event.read _ _ err => err
      | Event.malloc _ _ => acc
      | Event.free _ => acc)
    none

/-- How the error of a call that went to the source relates to its reads, when
the call had to receive `need` bytes: nil when the reads delivered at least
`need` bytes; otherwise the last read returned an error, and the call returns
that error value, except that `io.EOF` after at least one delivered byte is
returned as `io.ErrUnexpectedEOF`. -/
def ErrFromReads (need : Int) (tr : List Event) (err : Option Err) : Prop :=
  (need ≤ ((bytesReceived tr : Nat) : Int) ∧ err = none) ∨
  (((bytesReceived tr : Nat) : Int) < need ∧ lastReadErr tr ≠ none ∧
    ((0 < bytesReceived tr ∧ lastReadErr tr = some Err.EOF ∧
        err = some Err.ErrUnexpectedEOF) ∨
     (¬ (0 < bytesReceived tr ∧ lastReadErr tr = some Err.EOF) ∧ err = lastReadErr tr)))

/-! ## Basic facts about the slice primitives -/

theorem len_nonneg (b : Block) : 0 ≤ len b := by
  unfold len
  exact Int.ofNat_nonneg _

theorem slice_eq_some {b : Block} {lo hi : Int} (h0 : 0 ≤ lo) (h1 : lo ≤ hi) (h2 : hi ≤ len b) :
    slice b lo hi = some (b.map fun l => (l.drop lo.toNat).take (hi - lo).toNat) := by
  unfold slice
  rw [if_pos ⟨h0, h1, h2⟩]

theorem blockBytes_map (b : Block) (f : List Byte → List Byte) (hf : f [] = []) :
    blockBytes (b.map f) = f (blockBytes b) := by
  cases b <;> simp [blockBytes, hf]

theorem blockBytes_slice {b out : Block} {lo hi : Int} (h : slice b lo hi = some out) :
    blockBytes out = ((blockBytes b).drop lo.toNat).take (hi - lo).toNat := by
  unfold slice at h
  split at h
  · cases h
    exact blockBytes_map b _ (by simp)
  · cases h

theorem blockBytes_writeAt (b : Block) (pos : Nat) (got : List Byte)
    (h : pos + got.length ≤ (blockBytes b).length) :
    blockBytes (writeAt b pos got) =
      (blockBytes b).take pos ++ got ++ (blockBytes b).drop (pos + got.length) := by
  cases b with
  | none =>
    have h0 : pos + got.length ≤ 0 := h
    have hg : got = [] := List.eq_nil_of_length_eq_zero (by omega)
    simp [writeAt, blockBytes, hg]
  | some l => simp [writeAt, blockBytes]

theorem len_writeAt (b : Block) (pos : Nat) (got : List Byte)
    (h : pos + got.length ≤ (blockBytes b).length) :
    len (writeAt b pos got) = len b := by
  unfold len
  rw [blockBytes_writeAt b pos got h]
  simp only [List.length_append, List.length_take, List.length_drop]
  omega

theorem take_eq_of_append {α : Type} (a b l : List α) (h : a ++ b = l) :
    l.take a.length = a := by
  subst h
  simp

theorem drop_eq_of_append {α : Type} (a b l : List α) (h : a ++ b = l) :
    l.drop a.length = b := by
  subst h
  simp

/-! ## The read loop over a well-behaved source -/

theorem readLoop_of_err {σ : Type} (Read : σ → Nat → List Byte × Option Err × σ) (cap : Nat)
    (min : Int) (fuel : Nat) (r : σ) (acc : List Byte) (e : Err) (tr : List Event) :
    readLoop Read cap min fuel r acc (some e) tr = some (acc, some e, r, tr) := by
  cases fuel <;> simp [readLoop]

theorem readLoop_of_enough {σ : Type} (Read : σ → Nat → List Byte × Option Err × σ) (cap : Nat)
    (min : Int) (fuel : Nat) (r : σ) (acc : List Byte) (err : Option Err) (tr : List Event)
    (h : min ≤ ((acc.length : Nat) : Int)) :
    readLoop Read cap min fuel r acc err tr = some (acc, err, r, tr) := by
  cases fuel <;> simp [readLoop, not_lt.mpr h]

theorem readLoop_ok {σ π : Type} (env : Env σ π) (rem : σ → List Byte) (hsrc : SourceOk env rem)
    (cap : Nat) (min : Int) (hcap : min ≤ ((cap : Nat) : Int)) :
    ∀ (fuel : Nat) (r : σ) (acc : List Byte) (tr : List Event),
      min - ((acc.length : Nat) : Int) ≤ ((fuel : Nat) : Int) →
      ∃ acc1 err r1 tr1,
        readLoop env.Read cap min fuel r acc none tr = some (acc ++ acc1, err, r1, tr1) ∧
        acc1 ++ rem r1 = rem r ∧
        ((min ≤ (((acc ++ acc1).length : Nat) : Int) ∧ err = none) ∨
          ((((acc ++ acc1).length : Nat) : Int) < min ∧ err = some Err.EOF ∧ rem r1 = [])) := by
  intro fuel
  induction fuel with
  | zero =>
    intro r acc tr hfuel
    have h : min ≤ ((acc.length : Nat) : Int) := by
      have : ((0 : Nat) : Int) = 0 := rfl
      omega
    exact ⟨[], none, r, tr, by simpa using readLoop_of_enough env.Read cap min 0 r acc none tr h,
      by simp, Or.inl ⟨by simpa using h, rfl⟩⟩
  | succ k ih =>
    intro r acc tr hfuel
    by_cases h : min ≤ ((acc.length : Nat) : Int)
    · exact ⟨[], none, r, tr,
        by simpa using readLoop_of_enough env.Read cap min (k + 1) r acc none tr h,
        by simp, Or.inl ⟨by simpa using h, rfl⟩⟩
    · have hlt : ((acc.length : Nat) : Int) < min := not_le.mp h
      have hk : 0 < cap - acc.length := by omega
      have hstep : readLoop env.Read cap min (k + 1) r acc none tr =
          readLoop env.Read cap min k (env.Read r (cap - acc.length)).2.2
            (acc ++ (env.Read r (cap - acc.length)).1.take (cap - acc.length))
            (env.Read r (cap - acc.length)).2.1
            (tr ++ [Event.read (cap - acc.length)
              ((env.Read r (cap - acc.length)).1.take (cap - acc.length))
              (env.Read r (cap - acc.length)).2.1]) := by
        simp [readLoop, hlt]
      by_cases hrem : rem r = []
      · obtain ⟨hd, he, hr⟩ := hsrc.eof r (cap - acc.length) hrem
        refine ⟨[], some Err.EOF, (env.Read r (cap - acc.length)).2.2,
          tr ++ [Event.read (cap - acc.length) [] (some Err.EOF)], ?_, ?_, ?_⟩
        · rw [hstep, he, hd]
          simp [readLoop_of_err]
        · simp [hr, hrem]
        · exact Or.inr ⟨by simpa using hlt, rfl, hr⟩
      · obtain ⟨hd, hlen, he, hr⟩ := hsrc.chunk r (cap - acc.length) hrem hk
        have hpos : 0 < (env.Read r (cap - acc.length)).1.length :=
          List.length_pos.mpr hd
        have htake : (env.Read r (cap - acc.length)).1.take (cap - acc.length) =
            (env.Read r (cap - acc.length)).1 := List.take_of_length_le hlen
        obtain ⟨acc2, err, r1, tr1, hrun, hcat, hfin⟩ :=
          ih (env.Read r (cap - acc.length)).2.2 (acc ++ (env.Read r (cap - acc.length)).1)
            (tr ++ [Event.read (cap - acc.length) (env.Read r (cap - acc.length)).1 none])
            (by rw [List.length_append]; push_cast; omega)
        refine ⟨(env.Read r (cap - acc.length)).1 ++ acc2, err, r1, tr1, ?_, ?_, ?_⟩
        · rw [hstep, htake, he, hrun, List.append_assoc]
        · rw [List.append_assoc, hcat, hr]
        · rw [← List.append_assoc]
          exact hfin

theorem ReadAtLeast_ok {σ π : Type} (env : Env σ π) (rem : σ → List Byte)
    (hsrc : SourceOk env rem) (fuel : Nat) (r : σ) (cap : Nat) (min : Int)
    (hcap : min ≤ ((cap : Nat) : Int)) (hfuel : min ≤ ((fuel : Nat) : Int)) :
    ∃ got err r1 tr,
      ReadAtLeast env.Read fuel r cap min = some (got, err, r1, tr) ∧
      got ++ rem r1 = rem r ∧
      ((min ≤ ((got.length : Nat) : Int) ∧ err = none) ∨
        (((got.length : Nat) : Int) < min ∧ rem r1 = [] ∧
          ((got = [] ∧ err = some Err.EOF) ∨ (got ≠ [] ∧ err = some Err.ErrUnexpectedEOF)))) := by
  obtain ⟨acc1, err, r1, tr1, hrun, hcat, hfin⟩ :=
    readLoop_ok env rem hsrc cap min hcap fuel r [] [] (by simpa using hfuel)
  simp only [List.nil_append] at hrun hfin
  unfold ReadAtLeast
  rw [if_neg (not_lt.mpr hcap), hrun]
  rcases hfin with ⟨hge, _⟩ | ⟨hlt, he, hr⟩
  · exact ⟨acc1, none, r1, tr1, by simp [hge], hcat, Or.inl ⟨hge, rfl⟩⟩
  · by_cases hnil : acc1 = []
    · refine ⟨acc1, some Err.EOF, r1, tr1, ?_, hcat, Or.inr ⟨hlt, hr, Or.inl ⟨hnil, rfl⟩⟩⟩
      subst hnil
      have hlt0 : 0 < min := by simpa using hlt
      simp [hlt0, he]
    · refine ⟨acc1, some Err.ErrUnexpectedEOF, r1, tr1, ?_, hcat,
        Or.inr ⟨hlt, hr, Or.inr ⟨hnil, rfl⟩⟩⟩
      simp [not_le.mpr hlt, he, List.length_pos.mpr hnil]

theorem readLoop_length_le {σ : Type} (Read : σ → Nat → List Byte × Option Err × σ) (cap : Nat)
    (min : Int) :
    ∀ (fuel : Nat) (r : σ) (acc : List Byte) (err : Option Err) (tr : List Event)
      (out : List Byte × Option Err × σ × List Event),
      acc.length ≤ cap → readLoop Read cap min fuel r acc err tr = some out →
      out.1.length ≤ cap := by
  intro fuel
  induction fuel with
  | zero =>
    intro r acc err tr out hacc h
    unfold readLoop at h
    split at h
    · cases h
    · cases h
      exact hacc
  | succ k ih =>
    intro r acc err tr out hacc h
    unfold readLoop at h
    split at h
    · refine ih _ _ _ _ out ?_ h
      rw [List.length_append]
      have := List.length_take_le (cap - acc.length) (Read r (cap - acc.length)).1
      omega
    · cases h
      exact hacc

theorem ReadAtLeast_length_le {σ : Type} (Read : σ → Nat → List Byte × Option Err × σ)
    (fuel : Nat) (r : σ) (cap : Nat) (min : Int) (out : List Byte × Option Err × σ × List Event)
    (h : ReadAtLeast Read fuel r cap min = some out) :
    out.1.length ≤ cap := by
  unfold ReadAtLeast at h
  split at h
  · cases h
    exact Nat.zero_le _
  · split at h
    · cases h
    · rename_i acc err r1 tr hrun
      have hle := readLoop_length_le Read cap min fuel r [] none [] _ (Nat.zero_le _) hrun
      split at h
      · cases h
        exact hle
      · split at h <;> (cases h; exact hle)

/-! ## The slow path of the sliding reader -/

theorem blockBytes_copy (dst src : Block) :
    blockBytes (copy dst src) =
      (blockBytes src).take (blockBytes dst).length ++
        (blockBytes dst).drop (blockBytes src).length := by
  cases dst <;> simp [copy, blockBytes]

theorem window_length {σ π : Type} (s : ZeroCopyReadStream σ π) (hinv : WindowInv s) :
    (window s).length = s.dataSize.toNat := by
  obtain ⟨h0, h1, h2⟩ := hinv
  unfold len at h2
  unfold window
  rw [List.length_take, List.length_drop]
  omega

/-- Moving the window to the front of a block at least as long as the window. -/
theorem window_after_copy {σ π : Type} (s : ZeroCopyReadStream σ π) (hinv : WindowInv s)
    (dst w : Block) (hw : slice s.buf s.dataOffset (s.dataOffset + s.dataSize) = some w)
    (hdst : s.dataSize ≤ len dst) :
    ((blockBytes (copy dst w)).drop (0 : Int).toNat).take s.dataSize.toNat = window s ∧
      len (copy dst w) = len dst := by
  have hlen := window_length s hinv
  have hwb : blockBytes w = window s := by
    rw [blockBytes_slice hw]
    unfold window
    congr 1
    omega
  obtain ⟨h0, h1, h2⟩ := hinv
  unfold len at hdst
  have htake : (window s).take (blockBytes dst).length = window s :=
    List.take_of_length_le (by omega)
  constructor
  · rw [blockBytes_copy, hwb, htake]
    simp only [Int.toNat_zero, List.drop_zero]
    exact List.take_left' hlen
  · unfold len
    rw [blockBytes_copy, hwb, htake, List.length_append, List.length_drop]
    omega

theorem spaceCheck_ok {σ π : Type} (env : Env σ π) (hpool : PoolOk env)
    (s : ZeroCopyReadStream σ π) (n : Int) (hinv : WindowInv s) (hn : s.dataSize < n) :
    ∃ s1 tr, spaceCheck env s n = some (s1, tr) ∧
      window s1 = window s ∧ s1.dataSize = s.dataSize ∧ 0 ≤ s1.dataOffset ∧
      s1.dataOffset + n ≤ len s1.buf ∧ s1.r = s.r ∧ s1.maxSize = s.maxSize ∧
      s1.defaultBufSize = s.defaultBufSize := by
  have hinv' := hinv
  obtain ⟨h0, h1, h2⟩ := hinv
  obtain ⟨w, hw⟩ : ∃ w, slice s.buf s.dataOffset (s.dataOffset + s.dataSize) = some w :=
    ⟨_, slice_eq_some h0 (by omega) h2⟩
  unfold spaceCheck
  by_cases hroom : n > len s.buf - s.dataOffset
  · rw [if_pos hroom]
    by_cases hgrow : n > len s.buf
    · rw [if_pos hgrow]
      simp only [hw]
      have hns : n ≤ (if n > s.defaultBufSize then n else s.defaultBufSize) := by
        split <;> omega
      have hm : n ≤ len (env.Malloc s.memPool
          (if n > s.defaultBufSize then n else s.defaultBufSize)).1 :=
        le_trans hns (hpool _ _)
      obtain ⟨hwin, hl⟩ := window_after_copy s hinv'
        (env.Malloc s.memPool (if n > s.defaultBufSize then n else s.defaultBufSize)).1 w hw
        (by omega)
      refine ⟨_, _, rfl, hwin, rfl, le_refl _, ?_, rfl, rfl, rfl⟩
      simp only [hl]
      omega
    · rw [if_neg hgrow]
      simp only [hw]
      obtain ⟨hwin, hl⟩ := window_after_copy s hinv' s.buf w hw (by omega)
      refine ⟨_, _, rfl, hwin, rfl, le_refl _, ?_, rfl, rfl, rfl⟩
      simp only [hl]
      omega
  · rw [if_neg hroom]
    exact ⟨s, [], rfl, rfl, rfl, h0, by omega, rfl, rfl, rfl⟩

theorem drop_take_append {α : Type} (b x : List α) (o z : Nat) (h : o + z ≤ b.length) :
    (b.take (o + z) ++ x).drop o = (b.drop o).take z ++ x := by
  rw [List.drop_append_of_le_length (by rw [List.length_take]; omega), List.drop_take]
  congr 2
  omega

theorem fillAndServe_ok {σ π : Type} (env : Env σ π) (rem : σ → List Byte)
    (hsrc : SourceOk env rem) (fuel : Nat) (s : ZeroCopyReadStream σ π) (n : Int)
    (tr : List Event) (h0 : 0 ≤ s.dataOffset) (h1 : 0 ≤ s.dataSize)
    (hroom : s.dataOffset + n ≤ len s.buf) (hn : s.dataSize < n)
    (havail : n - s.dataSize ≤ (((rem s.r).length : Nat) : Int))
    (hfuel : n ≤ ((fuel : Nat) : Int)) :
    ∃ ret, fillAndServe env fuel s n tr = Res.ok ret ∧
      ret.err = none ∧ len ret.data = n ∧
      blockBytes ret.data = (window s ++ rem s.r).take n.toNat ∧
      WindowInv ret.state ∧
      window ret.state ++ rem ret.state.r = (window s ++ rem s.r).drop n.toNat ∧
      ret.state.maxSize = s.maxSize ∧ ret.state.defaultBufSize = s.defaultBufSize := by
  have hL : s.dataOffset + s.dataSize ≤ len s.buf := by omega
  have hwl := window_length s ⟨h0, h1, hL⟩
  obtain ⟨dst, hdst⟩ : ∃ dst, sliceFrom s.buf (s.dataOffset + s.dataSize) = some dst :=
    ⟨_, slice_eq_some (by omega) hL (le_refl _)⟩
  have hcap : ((blockBytes dst).length : Int) = len s.buf - (s.dataOffset + s.dataSize) := by
    rw [blockBytes_slice hdst, List.length_take, List.length_drop]
    unfold len at hL ⊢
    omega
  obtain ⟨got, err, r1, tr2, hrun, hcat, hfin⟩ :=
    ReadAtLeast_ok env rem hsrc fuel s.r (blockBytes dst).length (n - s.dataSize)
      (by omega) (by omega)
  have hgot : got.length ≤ (blockBytes dst).length :=
    ReadAtLeast_length_le env.Read fuel s.r _ _ _ hrun
  have hremlen : (rem s.r).length = got.length + (rem r1).length := by
    rw [← hcat, List.length_append]
  have hge : n - s.dataSize ≤ ((got.length : Nat) : Int) ∧ err = none := by
    rcases hfin with h | ⟨hlt, hr, _⟩
    · exact h
    · rw [hr] at hremlen
      simp only [List.length_nil, Nat.add_zero] at hremlen
      omega
  obtain ⟨hg, he⟩ := hge
  have hw : (s.dataOffset + s.dataSize).toNat + got.length ≤ (blockBytes s.buf).length := by
    unfold len at hcap
    omega
  have hbytes := blockBytes_writeAt s.buf _ got hw
  have hlenw := len_writeAt s.buf _ got hw
  have hosize : (if s.dataSize + ((got.length : Nat) : Int) + ((got.length : Nat) : Int) > n
      then n else s.dataSize + ((got.length : Nat) : Int) + ((got.length : Nat) : Int)) = n := by
    rw [if_pos (by omega)]
  obtain ⟨out, hout⟩ : ∃ out,
      slice (writeAt s.buf (s.dataOffset + s.dataSize).toNat got) s.dataOffset
        (s.dataOffset + n) = some out :=
    ⟨_, slice_eq_some h0 (by omega) (by rw [hlenw]; exact hroom)⟩
  have hsplit : (s.dataOffset + s.dataSize).toNat = s.dataOffset.toNat + s.dataSize.toNat := by
    omega
  have hfrom : (blockBytes (writeAt s.buf (s.dataOffset + s.dataSize).toNat got)).drop
      s.dataOffset.toNat =
      (window s ++ got) ++ (blockBytes s.buf).drop ((s.dataOffset + s.dataSize).toNat + got.length)
      := by
    rw [hbytes, List.append_assoc, hsplit, drop_take_append _ _ _ _ (by omega)]
    simp [window, List.append_assoc]
  have hWlen : (window s ++ got).length = s.dataSize.toNat + got.length := by
    rw [List.length_append, hwl]
  have hmW : n.toNat ≤ (window s ++ got).length := by
    rw [hWlen]
    omega
  have hdata : blockBytes out = (window s ++ got).take n.toNat := by
    rw [blockBytes_slice hout, hfrom, List.take_append_of_le_length (by rw [hWlen]; omega)]
    congr 1
    omega
  have hwin : ∀ st : ZeroCopyReadStream σ π,
      st.buf = writeAt s.buf (s.dataOffset + s.dataSize).toNat got →
      st.dataOffset = s.dataOffset + n →
      st.dataSize = s.dataSize + ((got.length : Nat) : Int) - n →
      window st = (window s ++ got).drop n.toNat := by
    intro st hb ho hz
    have hoff : (s.dataOffset + n).toNat = s.dataOffset.toNat + n.toNat := by omega
    unfold window
    rw [hb, ho, hz, hoff, ← List.drop_drop, hfrom, List.drop_append_of_le_length hmW]
    apply List.take_left'
    rw [List.length_drop, hWlen]
    omega
  refine ⟨{ data := out, err := err,
            state := { s with r := r1, buf := writeAt s.buf (s.dataOffset + s.dataSize).toNat got,
                              dataOffset := s.dataOffset + n,
                              dataSize := s.dataSize + ((got.length : Nat) : Int) - n },
            trace := tr ++ tr2 }, ?_, he, ?_, ?_, ?_, ?_, rfl, rfl⟩
  · unfold fillAndServe
    rw [hdst]
    simp only
    rw [hrun]
    simp only [hosize, hout]
  · simp only [len, hdata, List.length_take, hWlen]
    omega
  · simp only [hdata]
    rw [← hcat, ← List.append_assoc]
    exact (List.take_append_of_le_length hmW).symm
  · refine ⟨by simp only; omega, by simp only; omega, ?_⟩
    simp only [hlenw]
    unfold len at hcap ⊢
    omega
  · rw [hwin _ rfl rfl rfl]
    simp only
    rw [← hcat, ← List.append_assoc]
    exact (List.drop_append_of_le_length hmW).symm

/-! ## Concrete collaborators honour their contracts -/

theorem testEnv_SourceOk : SourceOk testEnv id := by
  constructor
  · intro r k hr
    have hr' : r = [] := hr
    subst hr'
    exact ⟨rfl, rfl, rfl⟩
  · intro r k hr hk
    have hr' : r ≠ [] := hr
    cases r with
    | nil => exact absurd rfl hr'
    | cons a t =>
      have hm : 0 < min k 3 := by omega
      refine ⟨?_, ?_, rfl, ?_⟩
      · show (a :: t).take (min k 3) ≠ []
        intro h
        have := congrArg List.length h
        rw [List.length_take] at this
        simp only [List.length_cons, List.length_nil] at this
        omega
      · show ((a :: t).take (min k 3)).length ≤ k
        rw [List.length_take]
        omega
      · show (a :: t).take (min k 3) ++ (a :: t).drop (min k 3) = a :: t
        exact List.take_append_drop _ _

theorem testEnv_PoolOk : PoolOk testEnv := by
  intro p n
  show n ≤ len (some (List.replicate n.toNat 170))
  unfold len blockBytes
  simp only [Option.getD_some, List.length_replicate]
  omega

/-! ## C1: round trip of the sliding reader -/

theorem fastPath_ok {σ π : Type} (env : Env σ π) (fuel : Nat)
    (s : ZeroCopyReadStream σ π) (n : Int)
    (hinv : WindowInv s) (h0 : 0 ≤ n) (hn : n ≤ s.dataSize) :
    ∃ out, slice s.buf s.dataOffset (s.dataOffset + n) = some out ∧
      blockBytes out = (window s).take n.toNat ∧
      ZeroCopyReadFull env fuel s n =
        Res.ok
          { data := out
            err := none
            state := { s with dataOffset := s.dataOffset + n, dataSize := s.dataSize - n }
            trace := [] } := by
  obtain ⟨hoff, _, hbound⟩ := hinv
  have hs := slice_eq_some (b := s.buf) hoff (by omega : s.dataOffset ≤ s.dataOffset + n)
    (by omega : s.dataOffset + n ≤ len s.buf)
  refine ⟨_, hs, ?_, ?_⟩
  · rw [blockBytes_slice hs]
    unfold window
    rw [List.take_take]
    congr 1
    omega
  · unfold ZeroCopyReadFull
    rw [if_pos (ge_iff_le.mpr hn), hs]

/-- One successful call: in a state satisfying the window invariant, without a
size limit, whose undelivered bytes (window, then what the source still holds)
are `D`, a request for `n ≤ len D` bytes returns the first `n` bytes of `D`
with a nil error and leaves a state of the same kind for the rest of `D`. -/
theorem ZeroCopyReadFull_step {σ π : Type} (env : Env σ π) (rem : σ → List Byte)
    (hsrc : SourceOk env rem) (hpool : PoolOk env) (fuel : Nat)
    (s : ZeroCopyReadStream σ π) (n : Int) (D : List Byte)
    (hinv : WindowInv s) (hmax : s.maxSize = 0) (hD : window s ++ rem s.r = D)
    (hn0 : 0 ≤ n) (hn : n ≤ ((D.length : Nat) : Int)) (hfuel : n ≤ ((fuel : Nat) : Int)) :
    ∃ ret, ZeroCopyReadFull env fuel s n = Res.ok ret ∧
      ret.err = none ∧ len ret.data = n ∧ blockBytes ret.data = D.take n.toNat ∧
      WindowInv ret.state ∧ ret.state.maxSize = 0 ∧
      window ret.state ++ rem ret.state.r = D.drop n.toNat := by
  have hwl := window_length s hinv
  have hDlen : D.length = s.dataSize.toNat + (rem s.r).length := by
    rw [← hD, List.length_append, hwl]
  by_cases hfast : n ≤ s.dataSize
  · obtain ⟨out, _, hout, hrun⟩ := fastPath_ok env fuel s n hinv hn0 hfast
    have hnw : n.toNat ≤ (window s).length := by omega
    have hwin : ∀ st : ZeroCopyReadStream σ π, st.buf = s.buf →
        st.dataOffset = s.dataOffset + n → st.dataSize = s.dataSize - n →
        window st = (window s).drop n.toNat := by
      intro st hb ho hz
      obtain ⟨h0, h1, h2⟩ := hinv
      have hoff : (s.dataOffset + n).toNat = s.dataOffset.toNat + n.toNat := by omega
      unfold window
      rw [hb, ho, hz, hoff, ← List.drop_drop, List.drop_take]
      congr 1
      omega
    refine ⟨_, hrun, rfl, ?_, ?_, ?_, hmax, ?_⟩
    · simp only [len, hout, List.length_take]
      omega
    · simp only [hout]
      rw [← hD]
      exact (List.take_append_of_le_length hnw).symm
    · obtain ⟨h0, h1, h2⟩ := hinv
      exact ⟨by simp only; omega, by simp only; omega, by simp only; omega⟩
    · rw [hwin { s with dataOffset := s.dataOffset + n, dataSize := s.dataSize - n } rfl rfl rfl]
      simp only
      rw [← hD]
      exact (List.drop_append_of_le_length hnw).symm
  · have hslow : s.dataSize < n := not_le.mp hfast
    have hz0 : 0 ≤ s.dataSize := hinv.2.1
    obtain ⟨s1, tr1, hsc, hw1, hz1, ho1, hroom1, hr1, hm1, _⟩ :=
      spaceCheck_ok env hpool s n hinv hslow
    obtain ⟨ret, hrun, he, hl, hdata, hinv2, hrest, hm2, _⟩ :=
      fillAndServe_ok env rem hsrc fuel s1 n tr1 ho1 (by rw [hz1]; exact hinv.2.1) hroom1
        (by rw [hz1]; exact hslow) (by rw [hz1, hr1]; omega) hfuel
    rw [hw1, hr1, hD] at hdata hrest
    refine ⟨ret, ?_, he, hl, hdata, hinv2, by rw [hm2, hm1, hmax], hrest⟩
    unfold ZeroCopyReadFull
    rw [if_neg (not_le.mpr hslow), if_neg (by rw [hmax]; simp), hsc]
    exact hrun

theorem readAll_ok {σ π : Type} (env : Env σ π) (rem : σ → List Byte)
    (hsrc : SourceOk env rem) (hpool : PoolOk env) (fuel : Nat) :
    ∀ (ns : List Int) (s : ZeroCopyReadStream σ π) (D : List Byte),
      WindowInv s → s.maxSize = 0 → window s ++ rem s.r = D →
      (∀ n ∈ ns, 0 < n) → ns.sum = ((D.length : Nat) : Int) → D.length ≤ fuel →
      ∃ outs, readAll env fuel s ns = some outs ∧
        List.Forall₂ (fun n o => o.2 = none ∧ len o.1 = n) ns outs ∧
        (outs.map fun o => blockBytes o.1).flatten = D := by
  intro ns
  induction ns with
  | nil =>
    intro s D _ _ _ _ hsum _
    have hD : D = [] := List.eq_nil_of_length_eq_zero (by simpa using hsum.symm)
    exact ⟨[], rfl, List.Forall₂.nil, by simp [hD]⟩
  | cons n ns ih =>
    intro s D hinv hmax hD hpos hsum hfuel
    have hn : 0 < n := hpos n (List.mem_cons_self _ _)
    have hpos' : ∀ m ∈ ns, 0 < m := fun m hm => hpos m (List.mem_cons_of_mem _ hm)
    have hrest : 0 ≤ ns.sum := List.sum_nonneg fun m hm => le_of_lt (hpos' m hm)
    rw [List.sum_cons] at hsum
    obtain ⟨ret, hrun, he, hl, hdata, hinv1, hmax1, hD1⟩ :=
      ZeroCopyReadFull_step env rem hsrc hpool fuel s n D hinv hmax hD (le_of_lt hn)
        (by omega) (by omega)
    obtain ⟨outs, hall, hf, hcat⟩ :=
      ih ret.state (D.drop n.toNat) hinv1 hmax1 hD1 hpos'
        (by rw [List.length_drop]; omega) (by rw [List.length_drop]; omega)
    refine ⟨(ret.data, ret.err) :: outs, ?_, List.Forall₂.cons ⟨he, hl⟩ hf, ?_⟩
    · simp only [readAll, hrun, hall, Option.map_some']
    · simp only [List.map_cons, List.flatten_cons, hcat, hdata]
      exact List.take_append_drop _ _

/-- C1: for a source that delivers the bytes `D = rem r` in non-empty chunks of
its own choice and then reports end-of-stream, a pool that honours its contract,
any `defaultBufSize`, `maxSize = 0`, and any positive request lengths that sum
to `len D`, the calls `ZeroCopyReadFull(n_i)` issued in order on a fresh reader
all return (given fuel for `len D` reads), each with a nil error and a slice of
length `n_i`, and the returned slices concatenated are `D`. -/
theorem ZeroCopyReadFull_round_trip {σ π : Type} (env : Env σ π) (rem : σ → List Byte)
    (hsrc : SourceOk env rem) (hpool : PoolOk env) (r : σ) (defaultBufSize : Int)
    (memPool : Option π) (ns : List Int) (fuel : Nat)
    (hpos : ∀ n ∈ ns, 0 < n) (hsum : ns.sum = (((rem r).length : Nat) : Int))
    (hfuel : (rem r).length ≤ fuel) :
    ∃ outs,
      readAll env fuel (NewZeroCopyReadStream env r defaultBufSize 0 memPool) ns = some outs ∧
      List.Forall₂ (fun n o => o.2 = none ∧ len o.1 = n) ns outs ∧
      (outs.map fun o => blockBytes o.1).flatten = rem r :=
  readAll_ok env rem hsrc hpool fuel ns (NewZeroCopyReadStream env r defaultBufSize 0 memPool)
    (rem r) ⟨le_refl _, le_refl _, by show (0 : Int) + 0 ≤ len none; decide⟩ rfl (by simp [window, NewZeroCopyReadStream, blockBytes])
    hpos hsum hfuel

/-- C1 at a concrete input: the test source holding 1,2,3,4,5 (at most 3 bytes per
read), the allocating pool, `defaultBufSize = 0`, requests 2 and 3. -/
theorem ZeroCopyReadFull_round_trip_witness :
    ∃ outs,
      readAll testEnv 5 (NewZeroCopyReadStream testEnv [1, 2, 3, 4, 5] 0 0 none) [2, 3]
        = some outs ∧
      List.Forall₂ (fun n o => o.2 = none ∧ len o.1 = n) [2, 3] outs ∧
      (outs.map fun o => blockBytes o.1).flatten = id [1, 2, 3, 4, 5] :=
  ZeroCopyReadFull_round_trip testEnv id testEnv_SourceOk testEnv_PoolOk [1, 2, 3, 4, 5] 0 none
    [2, 3] 5 (by decide) (by decide) (by decide)

/-! ## C2: short read on the sliding reader -/

/-- C2, at the failing input: a fresh reader (default block size 8, no limit)
over a source that holds the single byte 7 is asked for 5 bytes. The fill
receives one byte, yet the call returns the two bytes `buf[0:2]`, the second one
being the pool's filler 170 that never came from the source, and leaves
`dataSize = -1`. The claim asks for `buf[0:1]` and `dataSize = 0`. -/
theorem ZeroCopyReadFull_short_read_overserves :
    ZeroCopyReadFull testEnv 5 (NewZeroCopyReadStream testEnv [7] 8 0 none) 5 =
      Res.ok
        { data := some [7, 170]
          err := some Err.ErrUnexpectedEOF
          state :=
            { r := []
              buf := some [7, 170, 170, 170, 170, 170, 170, 170]
              dataOffset := 2
              dataSize := -1
              defaultBufSize := 8
              maxSize := 0
              memPool := () }
          trace :=
            [Event.malloc 8 (some [170, 170, 170, 170, 170, 170, 170, 170]), Event.free none,
              Event.read 8 [7] none, Event.read 7 [] (some Err.EOF)] } := by
  decide

/-! ## C3: window invariant -/

/-- C3, at the failing input: a fresh reader over the test source holding
1,2,3,4,5 serves 2 bytes and is then asked for 6. After that second call, which
returns an error, `dataSize = -2` although no byte read from the source is still
undelivered, so the window invariant does not hold. -/
theorem ZeroCopyReadFull_breaks_WindowInv :
    ∃ ret1 ret2,
      ZeroCopyReadFull testEnv 6 (NewZeroCopyReadStream testEnv [1, 2, 3, 4, 5] 8 0 none) 2
        = Res.ok ret1 ∧
      WindowInv ret1.state ∧
      ZeroCopyReadFull testEnv 6 ret1.state 6 = Res.ok ret2 ∧
      ret2.data = some [3, 4, 5, 170, 170] ∧
      ret2.err = some Err.ErrUnexpectedEOF ∧
      ret2.state.dataSize = -2 ∧
      ¬ WindowInv ret2.state :=
  ⟨{ data := some [1, 2]
     err := none
     state :=
       { r := [4, 5]
         buf := some [1, 2, 3, 170, 170, 170, 170, 170]
         dataOffset := 2
         dataSize := 1
         defaultBufSize := 8
         maxSize := 0
         memPool := () }
     trace :=
       [Event.malloc 8 (some [170, 170, 170, 170, 170, 170, 170, 170]), Event.free none,
         Event.read 8 [1, 2, 3] none] },
   { data := some [3, 4, 5, 170, 170]
     err := some Err.ErrUnexpectedEOF
     state :=
       { r := []
         buf := some [1, 2, 3, 4, 5, 170, 170, 170]
         dataOffset := 7
         dataSize := -2
         defaultBufSize := 8
         maxSize := 0
         memPool := () }
     trace := [Event.read 5 [4, 5] none, Event.read 3 [] (some Err.EOF)] },
   by decide, by decide, by decide, by decide, by decide, by decide, by decide⟩

/-! ## C4: safety ceiling of the sliding reader -/

/-- C4 as stated fails: a reader with `maxSize = 2` and a 16-byte block, over a
source that delivers its 8 bytes in one read, serves 1 byte and then holds 7
buffered bytes. In that reachable state the request for 5 bytes, above
`maxSize`, is served from the window with a nil error. -/
theorem maxSize_ignored_when_window_serves :
    ∃ ret1,
      ZeroCopyReadFull bytesEnv 1
          (NewZeroCopyReadStream bytesEnv [1, 2, 3, 4, 5, 6, 7, 8] 16 2 none) 1 = Res.ok ret1 ∧
      0 < ret1.state.maxSize ∧ ret1.state.maxSize < 5 ∧
      ZeroCopyReadFull bytesEnv 1 ret1.state 5 =
        Res.ok
          { data := some [2, 3, 4, 5, 6]
            err := none
            state := { ret1.state with dataOffset := 6, dataSize := 2 }
            trace := [] } :=
  ⟨{ data := some [1]
     err := none
     state :=
       { r := []
         buf := some [1, 2, 3, 4, 5, 6, 7, 8, 170, 170, 170, 170, 170, 170, 170, 170]
         dataOffset := 1
         dataSize := 7
         defaultBufSize := 16
         maxSize := 2
         memPool := () }
     trace :=
       [Event.malloc 16 (some (List.replicate 16 170)), Event.free none,
         Event.read 16 [1, 2, 3, 4, 5, 6, 7, 8] none] },
   by decide, by decide, by decide, by decide⟩

/-- C4, amended: in every reader state with `maxSize > 0`, a request `n > maxSize`
that the window cannot serve (`dataSize < n`) returns the size-limit error with
no data, makes no call on the source or the pool, and leaves the reader as it
was. -/
theorem ZeroCopyReadFull_size_limit {σ π : Type} (env : Env σ π) (fuel : Nat)
    (s : ZeroCopyReadStream σ π) (n : Int)
    (hmax : 0 < s.maxSize) (hn : s.maxSize < n) (hwin : s.dataSize < n) :
    ZeroCopyReadFull env fuel s n =
      Res.ok { data := none, err := some (Err.sizeLimit n s.maxSize), state := s, trace := [] } := by
  unfold ZeroCopyReadFull
  rw [if_neg (not_le.mpr hwin), if_pos ⟨hmax, hn⟩]

/-- C4 (amended) at a concrete input: a reader with `maxSize = 3` holding 2 buffered
bytes is asked for 4. -/
theorem ZeroCopyReadFull_size_limit_witness :
    ZeroCopyReadFull bytesEnv 0
        { r := [9], buf := some [1, 2, 3, 4], dataOffset := 1, dataSize := 2,
          defaultBufSize := 4, maxSize := 3, memPool := () } 4 =
      Res.ok
        { data := none
          err := some (Err.sizeLimit 4 3)
          state :=
            { r := [9], buf := some [1, 2, 3, 4], dataOffset := 1, dataSize := 2,
              defaultBufSize := 4, maxSize := 3, memPool := () }
          trace := [] } :=
  ZeroCopyReadFull_size_limit bytesEnv 0
    { r := [9], buf := some [1, 2, 3, 4], dataOffset := 1, dataSize := 2,
      defaultBufSize := 4, maxSize := 3, memPool := () } 4 (by decide) (by decide) (by decide)

/-! ## C5: safety ceiling of the fixed reader -/

/-- C5, at the failing input: a fixed reader with default size 8 and
`maxSize = 10` over a pool with 16-byte size classes. The first request, for 5
bytes, installs a 16-byte block. The next request asks for 12 bytes, above
`maxSize`: the block is long enough, so the size check is skipped, 12 bytes are
read from the source and returned with a nil error. -/
theorem BufferReadFull_reads_above_maxSize :
    ∃ ret1,
      BufferReadFull classEnv 12
          (NewBufferRead classEnv
            [1, 2, 3, 4, 5, 6, 7, 8, 9, 10, 11, 12, 13, 14, 15, 16, 17, 18, 19, 20] 8 10 none) 5
        = Res.ok ret1 ∧
      ret1.data = some [1, 2, 3, 4, 5] ∧ ret1.err = none ∧
      ret1.state.maxSize = 10 ∧ len ret1.state.buf = 16 ∧
      BufferReadFull classEnv 12 ret1.state 12 =
        Res.ok
          { data := some [6, 7, 8, 9, 10, 11, 12, 13, 14, 15, 16, 17]
            err := none
            state :=
              { r := [18, 19, 20]
                buf := some [6, 7, 8, 9, 10, 11, 12, 13, 14, 15, 16, 17, 170, 170, 170, 170]
                defaultBufSize := 8
                maxSize := 10
                memPool := () }
            trace := [Event.read 12 [6, 7, 8, 9, 10, 11, 12, 13, 14, 15, 16, 17] none] } :=
  ⟨{ data := some [1, 2, 3, 4, 5]
     err := none
     state :=
       { r := [6, 7, 8, 9, 10, 11, 12, 13, 14, 15, 16, 17, 18, 19, 20]
         buf := some [1, 2, 3, 4, 5, 170, 170, 170, 170, 170, 170, 170, 170, 170, 170, 170]
         defaultBufSize := 8
         maxSize := 10
         memPool := () }
     trace :=
       [Event.free none, Event.malloc 8 (some (List.replicate 16 170)),
         Event.read 5 [1, 2, 3, 4, 5] none] },
   by decide, by decide, by decide, by decide, by decide, by decide⟩

/-! ## C6: the size limit of the fixed reader -/

/-- C6, at the failing input: a fresh fixed reader built with `defaultBufSize = 0`
(stored as 4096) and `maxSize = 100` is asked for 5 bytes. The request is within
the limit, yet the call returns the size-limit error and reads nothing, because
the check compares the new block size 4096 with `maxSize`. -/
theorem BufferReadFull_rejects_request_within_maxSize :
    BufferReadFull bytesEnv 5 (NewBufferRead bytesEnv [1, 2, 3, 4, 5, 6, 7, 8] 0 100 none) 5 =
      Res.ok
        { data := none
          err := some (Err.sizeLimit 5 100)
          state :=
            { r := [1, 2, 3, 4, 5, 6, 7, 8]
              buf := none
              defaultBufSize := 4096
              maxSize := 100
              memPool := () }
          trace := [] } := by
  decide

/-! ## C7: result of the fixed reader -/

theorem readInto_ok {σ π : Type} (env : Env σ π) (rem : σ → List Byte)
    (hsrc : SourceOk env rem) (fuel : Nat) (s : BufferRead σ π) (n : Int) (tr : List Event)
    (hn : 0 ≤ n) (hfuel : n ≤ ((fuel : Nat) : Int)) (hlen : n ≤ len s.buf) :
    ∃ ret, readInto env fuel s n tr = Res.ok ret ∧
      blockBytes ret.data = (rem s.r).take n.toNat ∧
      slice ret.state.buf 0 (len ret.data) = some ret.data ∧
      (ret.err = none ↔ n ≤ (((rem s.r).length : Nat) : Int)) ∧
      (ret.err = none ↔ len ret.data = n) ∧
      blockBytes ret.data ++ rem ret.state.r = rem s.r ∧
      rem ret.state.r = (rem s.r).drop n.toNat ∧
      ret.state.memPool = s.memPool ∧ len ret.state.buf = len s.buf := by
  have hlen' : n.toNat ≤ (blockBytes s.buf).length := by
    unfold len at hlen
    omega
  have hdst := slice_eq_some (b := s.buf) (le_refl 0) hn hlen
  have hcap : (blockBytes (s.buf.map fun l => (l.drop (0 : Int).toNat).take (n - 0).toNat)).length
      = n.toNat := by
    rw [blockBytes_map _ _ (by simp)]
    simp
    omega
  obtain ⟨got, err, r1, tr2, hrun, hcat, hfin⟩ :=
    ReadAtLeast_ok env rem hsrc fuel s.r n.toNat ((n.toNat : Nat) : Int) (le_refl _)
      (by omega)
  have hgot : got.length ≤ n.toNat := ReadAtLeast_length_le env.Read fuel s.r n.toNat _ _ hrun
  have hw : 0 + got.length ≤ (blockBytes s.buf).length := by omega
  have hbytes := blockBytes_writeAt s.buf 0 got hw
  have hlenw := len_writeAt s.buf 0 got hw
  obtain ⟨out, hout⟩ : ∃ out, slice (writeAt s.buf 0 got) 0 ((got.length : Nat) : Int) = some out :=
    ⟨_, slice_eq_some (le_refl 0) (Int.ofNat_nonneg got.length)
      (by rw [hlenw]; unfold len; omega)⟩
  have hdata : blockBytes out = got := by
    rw [blockBytes_slice hout, hbytes]
    simp
  refine ⟨{ data := out, err := err, state := { s with r := r1, buf := writeAt s.buf 0 got },
            trace := tr ++ tr2 }, ?_, ?_, ?_, ?_, ?_, ?_, ?_, rfl, hlenw⟩
  · unfold readInto ReadFull
    rw [hdst]
    simp only [hcap]
    rw [hrun]
    simp only [hout]
  · simp only [hdata]
    rcases hfin with ⟨hge, _⟩ | ⟨hlt, hr, _⟩
    · have : got.length = n.toNat := by omega
      rw [← this]
      exact (take_eq_of_append got _ _ hcat).symm
    · rw [hr, List.append_nil] at hcat
      rw [← hcat]
      exact (List.take_of_length_le (by omega)).symm
  · simp only [len, hdata]
    exact hout
  · have hl : (rem s.r).length = got.length + (rem r1).length := by
      rw [← hcat, List.length_append]
    rcases hfin with ⟨hge, he⟩ | ⟨hlt, hr, he⟩
    · simp only [he, true_iff]
      omega
    · have hne : err ≠ none := by
        rcases he with ⟨_, he⟩ | ⟨_, he⟩ <;> simp [he]
      simp only [hne, false_iff]
      rw [hr] at hl
      simp at hl
      omega
  · simp only [len, hdata]
    rcases hfin with ⟨hge, he⟩ | ⟨hlt, hr, he⟩
    · simp only [he, true_iff]
      omega
    · have hne : err ≠ none := by
        rcases he with ⟨_, he⟩ | ⟨_, he⟩ <;> simp [he]
      simp only [hne, false_iff]
      omega
  · simp only [hdata]
    exact hcat
  · simp only
    rcases hfin with ⟨hge, _⟩ | ⟨hlt, hr, _⟩
    · have : got.length = n.toNat := by omega
      rw [← this]
      exact (drop_eq_of_append got _ _ hcat).symm
    · rw [hr, List.append_nil] at hcat
      rw [hr, ← hcat]
      exact (List.drop_of_length_le (by omega)).symm

/-- C7: for a source that still holds the bytes `R = rem s.r` and delivers them
in chunks of its own choice, a pool that honours its contract, and a request
`n ≥ 0` that the size check of `BufferReadFull` lets through, the call returns
(with enough fuel for `n` reads) the first `min n (len R)` bytes of `R`, as the
slice `buf[0:got]` of the reader's block; the error is nil exactly when `n`
bytes were delivered (exactly when `R` holds `n` bytes); and the source is left
holding `R` without the returned bytes, so nothing is read ahead. -/
theorem BufferReadFull_result {σ π : Type} (env : Env σ π) (rem : σ → List Byte)
    (hsrc : SourceOk env rem) (hpool : PoolOk env) (fuel : Nat) (s : BufferRead σ π) (n : Int)
    (hn : 0 ≤ n) (hfuel : n ≤ ((fuel : Nat) : Int))
    (hpass : ¬ (len s.buf < n ∧ s.maxSize > 0 ∧
      (if s.defaultBufSize < n then n else s.defaultBufSize) > s.maxSize)) :
    ∃ ret, BufferReadFull env fuel s n = Res.ok ret ∧
      blockBytes ret.data = (rem s.r).take n.toNat ∧
      slice ret.state.buf 0 (len ret.data) = some ret.data ∧
      (ret.err = none ↔ n ≤ (((rem s.r).length : Nat) : Int)) ∧
      (ret.err = none ↔ len ret.data = n) ∧
      blockBytes ret.data ++ rem ret.state.r = rem s.r ∧
      rem ret.state.r = (rem s.r).drop n.toNat := by
  by_cases hgrow : len s.buf < n
  · have hchk : ¬ (s.maxSize > 0 ∧
        (if s.defaultBufSize < n then n else s.defaultBufSize) > s.maxSize) :=
      fun h => hpass ⟨hgrow, h⟩
    have hnew : n ≤ len (env.Malloc (env.Free s.memPool s.buf)
        (if s.defaultBufSize < n then n else s.defaultBufSize)).1 := by
      have hns : n ≤ (if s.defaultBufSize < n then n else s.defaultBufSize) := by
        split <;> omega
      exact le_trans hns (hpool _ _)
    obtain ⟨ret, hrun, h1, h2, h3, h4, h5, h6, _⟩ :=
      readInto_ok env rem hsrc fuel
        { s with
          buf := (env.Malloc (env.Free s.memPool s.buf)
            (if s.defaultBufSize < n then n else s.defaultBufSize)).1
          memPool := (env.Malloc (env.Free s.memPool s.buf)
            (if s.defaultBufSize < n then n else s.defaultBufSize)).2 }
        n [Event.free s.buf, Event.malloc (if s.defaultBufSize < n then n else s.defaultBufSize)
          (env.Malloc (env.Free s.memPool s.buf)
            (if s.defaultBufSize < n then n else s.defaultBufSize)).1] hn hfuel hnew
    refine ⟨ret, ?_, h1, h2, h3, h4, h5, h6⟩
    unfold BufferReadFull
    rw [if_pos hgrow]
    simp only
    rw [if_neg hchk]
    exact hrun
  · obtain ⟨ret, hrun, h1, h2, h3, h4, h5, h6, _⟩ :=
      readInto_ok env rem hsrc fuel s n [] hn hfuel (not_lt.mp hgrow)
    refine ⟨ret, ?_, h1, h2, h3, h4, h5, h6⟩
    unfold BufferReadFull
    rw [if_neg hgrow]
    exact hrun

/-- C7 at a concrete input: a fresh fixed reader over the test source holding
1,2,3,4,5 is asked for 4 bytes. -/
theorem BufferReadFull_result_witness :
    ∃ ret,
      BufferReadFull testEnv 4 (NewBufferRead testEnv [1, 2, 3, 4, 5] 8 0 none) 4 = Res.ok ret ∧
      blockBytes ret.data = (id [1, 2, 3, 4, 5] : List Byte).take (4 : Int).toNat ∧
      slice ret.state.buf 0 (len ret.data) = some ret.data ∧
      (ret.err = none ↔ (4 : Int) ≤ (((id [1, 2, 3, 4, 5] : List Byte).length : Nat) : Int)) ∧
      (ret.err = none ↔ len ret.data = 4) ∧
      blockBytes ret.data ++ id ret.state.r = id [1, 2, 3, 4, 5] ∧
      id ret.state.r = (id [1, 2, 3, 4, 5] : List Byte).drop (4 : Int).toNat :=
  BufferReadFull_result testEnv id testEnv_SourceOk testEnv_PoolOk 4
    (NewBufferRead testEnv [1, 2, 3, 4, 5] 8 0 none) 4 (by decide) (by decide) (by decide)

/-! ## C8: fast path of the sliding reader -/

/-- C8: in a state satisfying the window invariant, a request `0 ≤ n ≤ dataSize`
returns the slice `buf[dataOffset : dataOffset+n]` (the first `n` bytes of the
window) with a nil error, adds `n` to `dataOffset`, takes `n` from `dataSize`,
and changes nothing else: the source and pool states and the block are the same
and the trace of collaborator calls is empty. -/
theorem ZeroCopyReadFull_fast_path {σ π : Type} (env : Env σ π) (fuel : Nat)
    (s : ZeroCopyReadStream σ π) (n : Int)
    (hinv : WindowInv s) (h0 : 0 ≤ n) (hn : n ≤ s.dataSize) :
    ∃ out, slice s.buf s.dataOffset (s.dataOffset + n) = some out ∧
      blockBytes out = (window s).take n.toNat ∧
      ZeroCopyReadFull env fuel s n =
        Res.ok
          { data := out
            err := none
            state := { s with dataOffset := s.dataOffset + n, dataSize := s.dataSize - n }
            trace := [] } :=
  fastPath_ok env fuel s n hinv h0 hn

/-- C8 at a concrete input: a reader holding the window 2,3,4,5 at offset 1 of a
6-byte block is asked for 2 bytes. -/
theorem ZeroCopyReadFull_fast_path_witness :
    ∃ out, slice (some [1, 2, 3, 4, 5, 6]) 1 (1 + 2) = some out ∧
      blockBytes out =
        (window
          ({ r := [9], buf := some [1, 2, 3, 4, 5, 6], dataOffset := 1, dataSize := 4,
             defaultBufSize := 6, maxSize := 0, memPool := () } :
            ZeroCopyReadStream (List Byte) Unit)).take 2 ∧
      ZeroCopyReadFull testEnv 0
          { r := [9], buf := some [1, 2, 3, 4, 5, 6], dataOffset := 1, dataSize := 4,
            defaultBufSize := 6, maxSize := 0, memPool := () } 2 =
        Res.ok
          { data := out
            err := none
            state :=
              { r := [9], buf := some [1, 2, 3, 4, 5, 6], dataOffset := 1 + 2, dataSize := 4 - 2,
                defaultBufSize := 6, maxSize := 0, memPool := () }
            trace := [] } :=
  ZeroCopyReadFull_fast_path testEnv 0
    { r := [9], buf := some [1, 2, 3, 4, 5, 6], dataOffset := 1, dataSize := 4,
      defaultBufSize := 6, maxSize := 0, memPool := () } 2 (by decide) (by decide) (by decide)

/-! ## C9: end of stream -/

/-- C9, at the failing input: a fresh reader over a source holding the single
byte 7 is asked for 5 bytes; the source is drained and the call returns
`io.ErrUnexpectedEOF`. The following request for 1 byte does not return: its
final slice expression is `buf[2:1]`, which is out of range. -/
theorem ZeroCopyReadFull_panics_after_end_of_stream :
    ∃ ret1,
      ZeroCopyReadFull testEnv 5 (NewZeroCopyReadStream testEnv [7] 8 0 none) 5 = Res.ok ret1 ∧
      ret1.err = some Err.ErrUnexpectedEOF ∧ ret1.state.r = [] ∧
      ret1.state.dataOffset = 2 ∧ ret1.state.dataSize = -1 ∧
      slice ret1.state.buf 2 (2 + (-1)) = none ∧
      ZeroCopyReadFull testEnv 5 ret1.state 1 = Res.panic :=
  ⟨{ data := some [7, 170]
     err := some Err.ErrUnexpectedEOF
     state :=
       { r := []
         buf := some [7, 170, 170, 170, 170, 170, 170, 170]
         dataOffset := 2
         dataSize := -1
         defaultBufSize := 8
         maxSize := 0
         memPool := () }
     trace :=
       [Event.malloc 8 (some [170, 170, 170, 170, 170, 170, 170, 170]), Event.free none,
         Event.read 8 [7] none, Event.read 7 [] (some Err.EOF)] },
   by decide, by decide, by decide, by decide, by decide, by decide, by decide⟩

/-! ## C10: Close of the sliding reader -/

/-- C10 as stated fails: a reader that holds 7 buffered bytes at offset 1 of a
16-byte block still has `dataOffset = 1` and `dataSize = 7` after `Close`,
while its block is nil, so the window is not cleared and the window invariant
does not hold against the empty block. -/
theorem Close_keeps_window :
    ∃ ret1,
      ZeroCopyReadFull bytesEnv 1
          (NewZeroCopyReadStream bytesEnv [1, 2, 3, 4, 5, 6, 7, 8] 16 0 none) 1 = Res.ok ret1 ∧
      (ZeroCopyReadStream.Close bytesEnv ret1.state).1.buf = none ∧
      (ZeroCopyReadStream.Close bytesEnv ret1.state).1.dataOffset = 1 ∧
      (ZeroCopyReadStream.Close bytesEnv ret1.state).1.dataSize = 7 ∧
      ¬ WindowInv (ZeroCopyReadStream.Close bytesEnv ret1.state).1 :=
  ⟨{ data := some [1]
     err := none
     state :=
       { r := []
         buf := some [1, 2, 3, 4, 5, 6, 7, 8, 170, 170, 170, 170, 170, 170, 170, 170]
         dataOffset := 1
         dataSize := 7
         defaultBufSize := 16
         maxSize := 0
         memPool := () }
     trace :=
       [Event.malloc 16 (some (List.replicate 16 170)), Event.free none,
         Event.read 16 [1, 2, 3, 4, 5, 6, 7, 8] none] },
   by decide, by decide, by decide, by decide, by decide⟩

/-- C10, amended: for every reader state, `Close` makes exactly one collaborator
call, `Free` of the old block on the reader's pool, and sets the block reference
to nil; the byte source, `dataOffset`, `dataSize`, `defaultBufSize` and
`maxSize` are left as they were. -/
theorem Close_spec {σ π : Type} (env : Env σ π) (s : ZeroCopyReadStream σ π) :
    (ZeroCopyReadStream.Close env s).2 = [Event.free s.buf] ∧
    (ZeroCopyReadStream.Close env s).1.memPool = env.Free s.memPool s.buf ∧
    (ZeroCopyReadStream.Close env s).1.buf = none ∧
    (ZeroCopyReadStream.Close env s).1.r = s.r ∧
    (ZeroCopyReadStream.Close env s).1.dataOffset = s.dataOffset ∧
    (ZeroCopyReadStream.Close env s).1.dataSize = s.dataSize ∧
    (ZeroCopyReadStream.Close env s).1.defaultBufSize = s.defaultBufSize ∧
    (ZeroCopyReadStream.Close env s).1.maxSize = s.maxSize :=
  ⟨rfl, rfl, rfl, rfl, rfl, rfl, rfl, rfl⟩

/-! ## Traces of the read loop, for every source -/

theorem poolCalls_append (a b : List Event) :
    poolCalls (a ++ b) = poolCalls a ++ poolCalls b := by
  unfold poolCalls
  exact List.filter_append _ _

theorem bytesReceived_append (a b : List Event) :
    bytesReceived (a ++ b) = bytesReceived a + bytesReceived b := by
  induction a with
  | nil => simp [bytesReceived]
  | cons e t ih =>
    cases e <;> simp [bytesReceived, ih]
    omega

theorem lastReadErr_append_read (tr : List Event) (k : Nat) (got : List Byte)
    (e : Option Err) : lastReadErr (tr ++ [Event.read k got e]) = e := by
  simp [lastReadErr, List.foldl_append]

theorem readLoop_trace {σ : Type} (Read : σ → Nat → List Byte × Option Err × σ) (cap : Nat)
    (min : Int) :
    ∀ (fuel : Nat) (r : σ) (acc : List Byte) (err : Option Err) (tr : List Event)
      (out : List Byte × Option Err × σ × List Event),
      acc.length = bytesReceived tr → poolCalls tr = [] → lastReadErr tr = err →
      readLoop Read cap min fuel r acc err tr = some out →
      out.1.length = bytesReceived out.2.2.2 ∧ poolCalls out.2.2.2 = [] ∧
        lastReadErr out.2.2.2 = out.2.1 ∧
        ¬ (((out.1.length : Nat) : Int) < min ∧ out.2.1 = none) := by
  intro fuel
  induction fuel with
  | zero =>
    intro r acc err tr out hb hp hl h
    unfold readLoop at h
    split at h
    · cases h
    · rename_i hc
      cases h
      exact ⟨hb, hp, hl, hc⟩
  | succ k ih =>
    intro r acc err tr out hb hp hl h
    unfold readLoop at h
    split at h
    · refine ih _ _ _ _ out ?_ ?_ ?_ h
      · rw [List.length_append, bytesReceived_append, hb]
        simp [bytesReceived]
      · rw [poolCalls_append, hp]
        simp [poolCalls]
      · exact lastReadErr_append_read _ _ _ _
    · rename_i hc
      cases h
      exact ⟨hb, hp, hl, hc⟩

/-- What `io.ReadAtLeast` returns, for every source: it makes no pool call, it
stores exactly the bytes its reads delivered, and it ends in one of three ways:
the destination is shorter than `min` (short-buffer error, no read); at least
`min` bytes were stored (nil error); or fewer were stored and the last read
returned an error, which is returned as it is unless it is `io.EOF` after some
byte was stored, which becomes `io.ErrUnexpectedEOF`. -/
theorem ReadAtLeast_sound {σ : Type} (Read : σ → Nat → List Byte × Option Err × σ)
    (fuel : Nat) (r : σ) (cap : Nat) (min : Int)
    (out : List Byte × Option Err × σ × List Event)
    (h : ReadAtLeast Read fuel r cap min = some out) :
    out.1.length = bytesReceived out.2.2.2 ∧ poolCalls out.2.2.2 = [] ∧
    ((((cap : Nat) : Int) < min ∧ out.2.1 = some Err.ErrShortBuffer ∧ out.2.2.2 = []) ∨
     (min ≤ ((cap : Nat) : Int) ∧ min ≤ ((out.1.length : Nat) : Int) ∧ out.2.1 = none) ∨
     (min ≤ ((cap : Nat) : Int) ∧ ((out.1.length : Nat) : Int) < min ∧
       lastReadErr out.2.2.2 ≠ none ∧
       ((0 < out.1.length ∧ lastReadErr out.2.2.2 = some Err.EOF ∧
           out.2.1 = some Err.ErrUnexpectedEOF) ∨
        (¬ (0 < out.1.length ∧ lastReadErr out.2.2.2 = some Err.EOF) ∧
           out.2.1 = lastReadErr out.2.2.2)))) := by
  unfold ReadAtLeast at h
  split at h
  · rename_i hshort
    cases h
    exact ⟨rfl, rfl, Or.inl ⟨hshort, rfl, rfl⟩⟩
  · rename_i hcap
    have hcap' : min ≤ ((cap : Nat) : Int) := not_lt.mp hcap
    split at h
    · cases h
    · rename_i acc err r1 tr hrun
      obtain ⟨hb, hp, hl, hexit⟩ :=
        readLoop_trace Read cap min fuel r [] none [] _ rfl rfl rfl hrun
      simp only at hb hp hl hexit
      split at h
      · rename_i hge
        cases h
        exact ⟨hb, hp, Or.inr (Or.inl ⟨hcap', hge, rfl⟩)⟩
      · rename_i hlt
        have hlt' : ((acc.length : Nat) : Int) < min := not_le.mp hlt
        have hne : err ≠ none := fun he => hexit ⟨hlt', he⟩
        split at h
        · rename_i hu
          cases h
          exact ⟨hb, hp, Or.inr (Or.inr ⟨hcap', hlt', by rw [hl]; exact hne,
            Or.inl ⟨hu.1, by rw [hl]; exact hu.2, rfl⟩⟩)⟩
        · rename_i hu
          cases h
          exact ⟨hb, hp, Or.inr (Or.inr ⟨hcap', hlt', by rw [hl]; exact hne,
            Or.inr ⟨by rw [hl]; exact hu, hl.symm⟩⟩)⟩

/-! ## Inversion of the call paths -/

theorem slice_inv {b out : Block} {lo hi : Int} (h : slice b lo hi = some out) :
    0 ≤ lo ∧ lo ≤ hi ∧ hi ≤ len b ∧ ((blockBytes out).length : Int) = hi - lo := by
  have hb := blockBytes_slice h
  unfold slice at h
  split at h
  · rename_i hc
    obtain ⟨h0, h1, h2⟩ := hc
    refine ⟨h0, h1, h2, ?_⟩
    rw [hb, List.length_take, List.length_drop]
    unfold len at h2
    omega
  · cases h

theorem len_copy (dst src : Block) : len (copy dst src) = len dst := by
  unfold len
  rw [blockBytes_copy, List.length_append, List.length_take, List.length_drop]
  omega

theorem spaceCheck_inv {σ π : Type} (env : Env σ π) (s s1 : ZeroCopyReadStream σ π) (n : Int)
    (tr1 : List Event) (h : spaceCheck env s n = some (s1, tr1)) :
    s1.r = s.r ∧ s1.dataSize = s.dataSize ∧ s1.maxSize = s.maxSize ∧
    s1.defaultBufSize = s.defaultBufSize ∧
    ((len s.buf - s.dataOffset < n ∧ len s.buf < n ∧
        tr1 = [Event.malloc (if n > s.defaultBufSize then n else s.defaultBufSize)
                 (env.Malloc s.memPool (if n > s.defaultBufSize then n else s.defaultBufSize)).1,
               Event.free s.buf] ∧
        s1.memPool = env.Free
          (env.Malloc s.memPool (if n > s.defaultBufSize then n else s.defaultBufSize)).2 s.buf ∧
        s1.dataOffset = 0 ∧
        ∃ w, slice s.buf s.dataOffset (s.dataOffset + s.dataSize) = some w ∧
          s1.buf = copy
            (env.Malloc s.memPool (if n > s.defaultBufSize then n else s.defaultBufSize)).1 w) ∨
     (len s.buf - s.dataOffset < n ∧ n ≤ len s.buf ∧ tr1 = [] ∧ s1.memPool = s.memPool ∧
        s1.dataOffset = 0 ∧
        ∃ w, slice s.buf s.dataOffset (s.dataOffset + s.dataSize) = some w ∧
          s1.buf = copy s.buf w) ∨
     (n ≤ len s.buf - s.dataOffset ∧ tr1 = [] ∧ s1 = s)) := by
  unfold spaceCheck at h
  split at h
  · rename_i hroom
    split at h
    · rename_i hgrow
      simp only at h
      split at h
      · cases h
      · rename_i w hw
        simp only [Option.some.injEq, Prod.mk.injEq] at h
        obtain ⟨hs, ht⟩ := h
        subst hs ht
        exact ⟨rfl, rfl, rfl, rfl, Or.inl ⟨hroom, hgrow, rfl, rfl, rfl, w, hw, rfl⟩⟩
    · rename_i hgrow
      split at h
      · cases h
      · rename_i w hw
        simp only [Option.some.injEq, Prod.mk.injEq] at h
        obtain ⟨hs, ht⟩ := h
        subst hs ht
        exact ⟨rfl, rfl, rfl, rfl,
          Or.inr (Or.inl ⟨hroom, not_lt.mp hgrow, rfl, rfl, rfl, w, hw, rfl⟩)⟩
  · rename_i hroom
    simp only [Option.some.injEq, Prod.mk.injEq] at h
    obtain ⟨hs, ht⟩ := h
    subst hs ht
    exact ⟨rfl, rfl, rfl, rfl, Or.inr (Or.inr ⟨not_lt.mp hroom, rfl, rfl⟩)⟩

theorem fillAndServe_inv {σ π : Type} (env : Env σ π) (fuel : Nat)
    (s : ZeroCopyReadStream σ π) (n : Int) (tr0 : List Event)
    (ret : Ret (ZeroCopyReadStream σ π)) (h : fillAndServe env fuel s n tr0 = Res.ok ret) :
    ∃ dst got err r1 tr2,
      sliceFrom s.buf (s.dataOffset + s.dataSize) = some dst ∧
      ReadAtLeast env.Read fuel s.r (blockBytes dst).length (n - s.dataSize)
        = some (got, err, r1, tr2) ∧
      slice (writeAt s.buf (s.dataOffset + s.dataSize).toNat got) s.dataOffset
        (s.dataOffset +
          (if s.dataSize + ((got.length : Nat) : Int) + ((got.length : Nat) : Int) > n then n
           else s.dataSize + ((got.length : Nat) : Int) + ((got.length : Nat) : Int)))
        = some ret.data ∧
      ret.err = err ∧ ret.trace = tr0 ++ tr2 ∧
      ret.state =
        { s with
          r := r1
          buf := writeAt s.buf (s.dataOffset + s.dataSize).toNat got
          dataOffset := s.dataOffset +
            (if s.dataSize + ((got.length : Nat) : Int) + ((got.length : Nat) : Int) > n then n
             else s.dataSize + ((got.length : Nat) : Int) + ((got.length : Nat) : Int))
          dataSize := s.dataSize + ((got.length : Nat) : Int) -
            (if s.dataSize + ((got.length : Nat) : Int) + ((got.length : Nat) : Int) > n then n
             else s.dataSize + ((got.length : Nat) : Int) + ((got.length : Nat) : Int)) } := by
  unfold fillAndServe at h
  split at h
  · cases h
  · rename_i dst hdst
    simp only at h
    split at h
    · cases h
    · rename_i got err r1 tr2 hrun
      split at h
      · cases h
      · rename_i out hout
        cases h
        exact ⟨dst, got, err, r1, tr2, hdst, hrun, hout, rfl, rfl, rfl⟩

theorem ZeroCopyReadFull_inv {σ π : Type} (env : Env σ π) (fuel : Nat)
    (s : ZeroCopyReadStream σ π) (n : Int) (ret : Ret (ZeroCopyReadStream σ π))
    (h : ZeroCopyReadFull env fuel s n = Res.ok ret) :
    (n ≤ s.dataSize ∧ slice s.buf s.dataOffset (s.dataOffset + n) = some ret.data ∧
        ret.err = none ∧ ret.trace = [] ∧
        ret.state = { s with dataOffset := s.dataOffset + n, dataSize := s.dataSize - n }) ∨
    (s.dataSize < n ∧ (s.maxSize > 0 ∧ n > s.maxSize) ∧ ret.data = none ∧
        ret.err = some (Err.sizeLimit n s.maxSize) ∧ ret.trace = [] ∧ ret.state = s) ∨
    (s.dataSize < n ∧ ¬ (s.maxSize > 0 ∧ n > s.maxSize) ∧
        ∃ s1 tr1, spaceCheck env s n = some (s1, tr1) ∧
          fillAndServe env fuel s1 n tr1 = Res.ok ret) := by
  unfold ZeroCopyReadFull at h
  split at h
  · rename_i hfast
    split at h
    · cases h
    · rename_i out hout
      cases h
      exact Or.inl ⟨hfast, hout, rfl, rfl, rfl⟩
  · rename_i hfast
    have hslow : s.dataSize < n := not_le.mp hfast
    split at h
    · rename_i hlim
      cases h
      exact Or.inr (Or.inl ⟨hslow, hlim, rfl, rfl, rfl, rfl⟩)
    · rename_i hlim
      split at h
      · cases h
      · rename_i s1 tr1 hsc
        exact Or.inr (Or.inr ⟨hslow, hlim, s1, tr1, hsc, h⟩)

theorem readInto_inv {σ π : Type} (env : Env σ π) (fuel : Nat) (s : BufferRead σ π) (n : Int)
    (tr0 : List Event) (ret : Ret (BufferRead σ π))
    (h : readInto env fuel s n tr0 = Res.ok ret) :
    ∃ dst got err r1 tr2,
      slice s.buf 0 n = some dst ∧
      ReadAtLeast env.Read fuel s.r (blockBytes dst).length
        (((blockBytes dst).length : Nat) : Int) = some (got, err, r1, tr2) ∧
      slice (writeAt s.buf 0 got) 0 ((got.length : Nat) : Int) = some ret.data ∧
      ret.err = err ∧ ret.trace = tr0 ++ tr2 ∧
      ret.state = { s with r := r1, buf := writeAt s.buf 0 got } := by
  unfold readInto ReadFull at h
  split at h
  · cases h
  · rename_i dst hdst
    split at h
    · cases h
    · rename_i got err r1 tr2 hrun
      simp only at h
      split at h
      · cases h
      · rename_i out hout
        cases h
        exact ⟨dst, got, err, r1, tr2, hdst, hrun, hout, rfl, rfl, rfl⟩

theorem BufferReadFull_inv {σ π : Type} (env : Env σ π) (fuel : Nat) (s : BufferRead σ π)
    (n : Int) (ret : Ret (BufferRead σ π)) (h : BufferReadFull env fuel s n = Res.ok ret) :
    (len s.buf < n ∧
        (s.maxSize > 0 ∧ (if s.defaultBufSize < n then n else s.defaultBufSize) > s.maxSize) ∧
        ret.data = none ∧ ret.err = some (Err.sizeLimit n s.maxSize) ∧ ret.trace = [] ∧
        ret.state = s) ∨
    (len s.buf < n ∧
        ¬ (s.maxSize > 0 ∧ (if s.defaultBufSize < n then n else s.defaultBufSize) > s.maxSize) ∧
        readInto env fuel
          { s with
            buf := (env.Malloc (env.Free s.memPool s.buf)
              (if s.defaultBufSize < n then n else s.defaultBufSize)).1
            memPool := (env.Malloc (env.Free s.memPool s.buf)
              (if s.defaultBufSize < n then n else s.defaultBufSize)).2 }
          n
          [Event.free s.buf,
            Event.malloc (if s.defaultBufSize < n then n else s.defaultBufSize)
              (env.Malloc (env.Free s.memPool s.buf)
                (if s.defaultBufSize < n then n else s.defaultBufSize)).1]
          = Res.ok ret) ∨
    (n ≤ len s.buf ∧ readInto env fuel s n [] = Res.ok ret) := by
  unfold BufferReadFull at h
  by_cases hgrow : len s.buf < n
  · rw [if_pos hgrow] at h
    simp only at h
    by_cases hlim : s.maxSize > 0 ∧
        (if s.defaultBufSize < n then n else s.defaultBufSize) > s.maxSize
    · rw [if_pos hlim] at h
      cases h
      exact Or.inl ⟨hgrow, hlim, rfl, rfl, rfl, rfl⟩
    · rw [if_neg hlim] at h
      exact Or.inr (Or.inl ⟨hgrow, hlim, h⟩)
  · rw [if_neg hgrow] at h
    exact Or.inr (Or.inr ⟨not_lt.mp hgrow, h⟩)

/-! ## C11: teardown of the fixed reader -/

/-- C11: for every fixed-reader state, `Close` is `Free`; `Free` makes one
collaborator call, `Free` of the current block on the reader's pool, sets the
block reference to nil and leaves the source, `defaultBufSize` and `maxSize` as
they were. A second `Free` gives the same reader again, its pool having seen
one more call, `Free(nil)`. With `defaultBufSize > 0` (what the constructor
stores) the freed reader is the reader `NewBufferRead` builds from the same
source, sizes and pool, so a later `BufferReadFull(n)` behaves as on a fresh
reader. -/
theorem BufferRead_Free_idempotent {σ π : Type} (env : Env σ π) (s : BufferRead σ π)
    (fuel : Nat) (n : Int) (hd : 0 < s.defaultBufSize) :
    BufferRead.Close env s = BufferRead.Free env s ∧
    (BufferRead.Free env s).2 = [Event.free s.buf] ∧
    (BufferRead.Free env s).1.memPool = env.Free s.memPool s.buf ∧
    (BufferRead.Free env s).1.buf = none ∧
    (BufferRead.Free env s).1.r = s.r ∧
    (BufferRead.Free env s).1.defaultBufSize = s.defaultBufSize ∧
    (BufferRead.Free env s).1.maxSize = s.maxSize ∧
    (BufferRead.Free env (BufferRead.Free env s).1).2 = [Event.free none] ∧
    (BufferRead.Free env (BufferRead.Free env s).1).1 =
      { (BufferRead.Free env s).1 with
        memPool := env.Free (BufferRead.Free env s).1.memPool none } ∧
    (BufferRead.Free env s).1 =
      NewBufferRead env s.r s.defaultBufSize s.maxSize (some (env.Free s.memPool s.buf)) ∧
    BufferReadFull env fuel (BufferRead.Free env s).1 n =
      BufferReadFull env fuel
        (NewBufferRead env s.r s.defaultBufSize s.maxSize (some (env.Free s.memPool s.buf))) n := by
  have hnew : (BufferRead.Free env s).1 =
      NewBufferRead env s.r s.defaultBufSize s.maxSize (some (env.Free s.memPool s.buf)) := by
    simp only [BufferRead.Free, NewBufferRead, if_neg (not_le.mpr hd)]
  exact ⟨rfl, rfl, rfl, rfl, rfl, rfl, rfl, rfl, rfl, hnew, by rw [hnew]⟩

/-- C11 at a concrete input: a fixed reader holding a 4-byte block, default
size 4, freed and then asked for 2 bytes. -/
theorem BufferRead_Free_idempotent_witness :
    BufferRead.Close testEnv
        ({ r := [5, 6, 7], buf := some [1, 2, 3, 4], defaultBufSize := 4, maxSize := 0,
           memPool := () } : BufferRead (List Byte) Unit) =
      BufferRead.Free testEnv
        { r := [5, 6, 7], buf := some [1, 2, 3, 4], defaultBufSize := 4, maxSize := 0,
          memPool := () } ∧
    BufferReadFull testEnv 2
        (BufferRead.Free testEnv
          { r := [5, 6, 7], buf := some [1, 2, 3, 4], defaultBufSize := 4, maxSize := 0,
            memPool := () }).1 2 =
      BufferReadFull testEnv 2 (NewBufferRead testEnv [5, 6, 7] 4 0 (some ())) 2 :=
  ⟨(BufferRead_Free_idempotent testEnv
      { r := [5, 6, 7], buf := some [1, 2, 3, 4], defaultBufSize := 4, maxSize := 0,
        memPool := () } 2 2 (by decide)).1,
    (BufferRead_Free_idempotent testEnv
      { r := [5, 6, 7], buf := some [1, 2, 3, 4], defaultBufSize := 4, maxSize := 0,
        memPool := () } 2 2 (by decide)).2.2.2.2.2.2.2.2.2.2⟩

/-! ## C12: constructor defaults -/

/-- C12: both constructors store 4096 as `defaultBufSize` when the argument is
`≤ 0` and the argument itself otherwise, replace a nil pool by the default pool
and keep a given pool, store `maxSize` and the source as given, and allocate no
block; the sliding reader starts with `dataOffset = 0` and `dataSize = 0`. -/
theorem constructor_defaults {σ π : Type} (env : Env σ π) (r : σ) (d maxSize : Int) (p : π)
    (memPool : Option π) :
    (NewZeroCopyReadStream env r d maxSize memPool).defaultBufSize
      = (if d ≤ 0 then 4096 else d) ∧
    (NewZeroCopyReadStream env r 10 maxSize memPool).defaultBufSize = 10 ∧
    (NewZeroCopyReadStream env r d maxSize none).memPool = env.defaultMemPool ∧
    (NewZeroCopyReadStream env r d maxSize (some p)).memPool = p ∧
    (NewZeroCopyReadStream env r d maxSize memPool).maxSize = maxSize ∧
    (NewZeroCopyReadStream env r d maxSize memPool).r = r ∧
    (NewZeroCopyReadStream env r d maxSize memPool).buf = none ∧
    (NewZeroCopyReadStream env r d maxSize memPool).dataOffset = 0 ∧
    (NewZeroCopyReadStream env r d maxSize memPool).dataSize = 0 ∧
    (NewBufferRead env r d maxSize memPool).defaultBufSize = (if d ≤ 0 then 4096 else d) ∧
    (NewBufferRead env r 10 maxSize memPool).defaultBufSize = 10 ∧
    (NewBufferRead env r d maxSize none).memPool = env.defaultMemPool ∧
    (NewBufferRead env r d maxSize (some p)).memPool = p ∧
    (NewBufferRead env r d maxSize memPool).maxSize = maxSize ∧
    (NewBufferRead env r d maxSize memPool).r = r ∧
    (NewBufferRead env r d maxSize memPool).buf = none :=
  ⟨rfl, rfl, rfl, rfl, rfl, rfl, rfl, rfl, rfl, rfl, rfl, rfl, rfl, rfl, rfl, rfl⟩

/-! ## C13: the space check -/

/-- C13: in a state satisfying the window invariant, for a request `n` larger
than the window and a pool that honours its contract, the space check returns
(no slice expression is out of range), the bytes of the window
`buf[dataOffset : dataOffset+dataSize]` are what they were before, `dataSize` is
unchanged, the window invariant still holds and `dataOffset + n ≤ len(buf)`.
When `n` does not fit behind `dataOffset` the window is moved (into a new block
or to the front of the same block, read as it was before the move) and
`dataOffset = 0`; otherwise the reader is left as it was. -/
theorem spaceCheck_preserves_window {σ π : Type} (env : Env σ π) (hpool : PoolOk env)
    (s : ZeroCopyReadStream σ π) (n : Int) (hinv : WindowInv s) (hn : s.dataSize < n) :
    ∃ s1 tr1, spaceCheck env s n = some (s1, tr1) ∧
      window s1 = window s ∧ s1.dataSize = s.dataSize ∧
      WindowInv s1 ∧ s1.dataOffset + n ≤ len s1.buf ∧
      ((len s.buf - s.dataOffset < n ∧ s1.dataOffset = 0) ∨
        (n ≤ len s.buf - s.dataOffset ∧ s1 = s)) := by
  obtain ⟨s1, tr1, hsc, hw, hz, ho, hroom, _⟩ := spaceCheck_ok env hpool s n hinv hn
  obtain ⟨_, _, _, _, hcase⟩ := spaceCheck_inv env s s1 n tr1 hsc
  have hz0 : 0 ≤ s.dataSize := hinv.2.1
  refine ⟨s1, tr1, hsc, hw, hz, ⟨ho, by omega, by omega⟩, hroom, ?_⟩
  rcases hcase with ⟨h1, _, _, _, h0, _⟩ | ⟨h1, _, _, _, h0, _⟩ | ⟨h1, _, hs⟩
  · exact Or.inl ⟨h1, h0⟩
  · exact Or.inl ⟨h1, h0⟩
  · exact Or.inr ⟨h1, hs⟩

/-- C13 at a concrete input: the window 2,3,4 sits at offset 1 of a 4-byte block
and 4 bytes are requested, so the window is moved to the front of the same
block, source and destination of the move overlapping. -/
theorem spaceCheck_preserves_window_witness :
    ∃ s1 tr1,
      spaceCheck testEnv
          ({ r := [5, 6], buf := some [1, 2, 3, 4], dataOffset := 1, dataSize := 3,
             defaultBufSize := 4, maxSize := 0, memPool := () } :
            ZeroCopyReadStream (List Byte) Unit) 4 = some (s1, tr1) ∧
      window s1 =
        window
          ({ r := [5, 6], buf := some [1, 2, 3, 4], dataOffset := 1, dataSize := 3,
             defaultBufSize := 4, maxSize := 0, memPool := () } :
            ZeroCopyReadStream (List Byte) Unit) ∧
      s1.dataSize = 3 ∧ WindowInv s1 ∧ s1.dataOffset + 4 ≤ len s1.buf ∧
      ((len (some [1, 2, 3, 4]) - 1 < 4 ∧ s1.dataOffset = 0) ∨
        ((4 : Int) ≤ len (some [1, 2, 3, 4]) - 1 ∧
          s1 = { r := [5, 6], buf := some [1, 2, 3, 4], dataOffset := 1, dataSize := 3,
                 defaultBufSize := 4, maxSize := 0, memPool := () })) :=
  spaceCheck_preserves_window testEnv testEnv_PoolOk
    { r := [5, 6], buf := some [1, 2, 3, 4], dataOffset := 1, dataSize := 3,
      defaultBufSize := 4, maxSize := 0, memPool := () } 4 (by decide) (by decide)

/-! ## C14: when the pool is used -/

/-- The fill step never touches the pool or replaces the block, whatever the
source does. -/
theorem fillAndServe_frame {σ π : Type} (env : Env σ π) (fuel : Nat)
    (s : ZeroCopyReadStream σ π) (n : Int) (tr0 : List Event)
    (ret : Ret (ZeroCopyReadStream σ π)) (h : fillAndServe env fuel s n tr0 = Res.ok ret) :
    poolCalls ret.trace = poolCalls tr0 ∧ ret.state.memPool = s.memPool ∧
      len ret.state.buf = len s.buf := by
  obtain ⟨dst, got, err, r1, tr2, hdst, hrun, _, _, htr, hst⟩ :=
    fillAndServe_inv env fuel s n tr0 ret h
  obtain ⟨_, hp, _⟩ := ReadAtLeast_sound env.Read fuel s.r _ _ _ hrun
  have hg : got.length ≤ (blockBytes dst).length :=
    ReadAtLeast_length_le env.Read fuel s.r _ _ _ hrun
  obtain ⟨h0, h1, _, hl⟩ := slice_inv hdst
  refine ⟨?_, ?_, ?_⟩
  · rw [htr, poolCalls_append, hp, List.append_nil]
  · rw [hst]
  · rw [hst]
    apply len_writeAt
    unfold len at h1 hl
    omega

/-- Pool calls of a call that returns: for a reader with `dataOffset ≥ 0`, a
call `ZeroCopyReadFull(n)` that returns has used the pool exactly when it left the fast path (`dataSize < n`),
passed the size check and `n > len(buf)`. In that case its pool calls are one
`Malloc` of size `max(defaultBufSize, n)` and one `Free` of the old block; in
every other case it made no pool call, the pool is as it was and the block has
the length it had. -/
theorem pool_used_only_for_growth {σ π : Type} (env : Env σ π) (fuel : Nat)
    (s : ZeroCopyReadStream σ π) (n : Int) (ret : Ret (ZeroCopyReadStream σ π))
    (hoff : 0 ≤ s.dataOffset) (h : ZeroCopyReadFull env fuel s n = Res.ok ret) :
    poolCalls ret.trace =
      (if s.dataSize < n ∧ ¬ (s.maxSize > 0 ∧ n > s.maxSize) ∧ len s.buf < n then
        [Event.malloc (if n > s.defaultBufSize then n else s.defaultBufSize)
           (env.Malloc s.memPool (if n > s.defaultBufSize then n else s.defaultBufSize)).1,
         Event.free s.buf]
       else []) ∧
    ret.state.memPool =
      (if s.dataSize < n ∧ ¬ (s.maxSize > 0 ∧ n > s.maxSize) ∧ len s.buf < n then
        env.Free
          (env.Malloc s.memPool (if n > s.defaultBufSize then n else s.defaultBufSize)).2 s.buf
       else s.memPool) ∧
    ((s.dataSize < n ∧ ¬ (s.maxSize > 0 ∧ n > s.maxSize) ∧ len s.buf < n) ∨
      len ret.state.buf = len s.buf) := by
  rcases ZeroCopyReadFull_inv env fuel s n ret h with
    ⟨hfast, _, _, htr, hst⟩ | ⟨_, hlim, _, _, htr, hst⟩ | ⟨hslow, hlim, s1, tr1, hsc, hfill⟩
  · have hc : ¬ (s.dataSize < n ∧ ¬ (s.maxSize > 0 ∧ n > s.maxSize) ∧ len s.buf < n) :=
      fun hc => absurd hc.1 (not_lt.mpr hfast)
    rw [if_neg hc, if_neg hc, htr, hst]
    exact ⟨rfl, rfl, Or.inr rfl⟩
  · have hc : ¬ (s.dataSize < n ∧ ¬ (s.maxSize > 0 ∧ n > s.maxSize) ∧ len s.buf < n) :=
      fun hc => hc.2.1 hlim
    rw [if_neg hc, if_neg hc, htr, hst]
    exact ⟨rfl, rfl, Or.inr rfl⟩
  · obtain ⟨hp, hm, hl⟩ := fillAndServe_frame env fuel s1 n tr1 ret hfill
    obtain ⟨_, _, _, _, hcase⟩ := spaceCheck_inv env s s1 n tr1 hsc
    rcases hcase with ⟨_, hgrow, htr1, hm1, _, _⟩ | ⟨_, hfit, htr1, hm1, _, w, _, hb⟩ |
      ⟨hfit, htr1, hs1⟩
    · have hc : s.dataSize < n ∧ ¬ (s.maxSize > 0 ∧ n > s.maxSize) ∧ len s.buf < n :=
        ⟨hslow, hlim, hgrow⟩
      rw [if_pos hc, if_pos hc, hp, hm, htr1, hm1]
      exact ⟨rfl, rfl, Or.inl hc⟩
    · have hc : ¬ (s.dataSize < n ∧ ¬ (s.maxSize > 0 ∧ n > s.maxSize) ∧ len s.buf < n) :=
        fun hc => absurd hc.2.2 (not_lt.mpr hfit)
      rw [if_neg hc, if_neg hc, hp, hm, htr1, hm1, hl, hb, len_copy]
      exact ⟨rfl, rfl, Or.inr rfl⟩
    · have hc : ¬ (s.dataSize < n ∧ ¬ (s.maxSize > 0 ∧ n > s.maxSize) ∧ len s.buf < n) :=
        fun hc => absurd hc.2.2 (not_lt.mpr (by omega))
      rw [if_neg hc, if_neg hc, hp, hm, htr1, hl, hs1]
      exact ⟨rfl, rfl, Or.inr rfl⟩

/-- The pool calls of a returning call at a concrete input: the window 3,4 sits
in a 4-byte block and 6 bytes are requested. -/
theorem pool_used_only_for_growth_witness :
    ZeroCopyReadFull testEnv 6 growState 6 = Res.ok growRet ∧
    poolCalls growRet.trace =
      [Event.malloc 6 (some [170, 170, 170, 170, 170, 170]), Event.free (some [1, 2, 3, 4])] :=
  ⟨by decide,
    (pool_used_only_for_growth testEnv 6 growState 6 growRet (by decide) (by decide)).1⟩

/-- When the space check returns, the pool calls it reports are those of
`spaceCheckCalls`. -/
theorem spaceCheckCalls_of_spaceCheck {σ π : Type} (env : Env σ π)
    (s s1 : ZeroCopyReadStream σ π) (n : Int) (tr1 : List Event)
    (h : spaceCheck env s n = some (s1, tr1)) : spaceCheckCalls env s n = tr1 := by
  obtain ⟨_, _, _, _, hcase⟩ := spaceCheck_inv env s s1 n tr1 h
  unfold spaceCheckCalls
  rcases hcase with ⟨hroom, hgrow, htr, _, _, w, hw, _⟩ | ⟨hroom, hfit, htr, _⟩ |
    ⟨hfit, htr, _⟩
  · rw [if_pos hroom, if_pos hgrow]
    simp only [hw]
    exact htr.symm
  · rw [if_pos hroom, if_neg (not_lt.mpr hfit)]
    exact htr.symm
  · rw [if_neg (not_lt.mpr hfit)]
    exact htr.symm

/-- C14, at the failing input: a fresh reader (default block size 8, no limit)
over the test source holding 1,2,3,4,5 serves 2 bytes and is then asked for 6;
that call ends in a short read and leaves `dataOffset = 7`, `dataSize = -2` in
the 8-byte block. The next request, for 10 bytes, leaves the fast path, passes
the size check and exceeds `len(buf)`: the call makes its `Malloc(10)` and then
panics on the slice expression `buf[7:5]`, so its pool calls are one `Malloc`
and no `Free`. The claim asks for exactly one `Malloc` and exactly one `Free`
of the old block in that case. -/
theorem growth_mallocs_then_panics_before_free :
    ∃ ret1 ret2,
      ZeroCopyReadFull testEnv 6 (NewZeroCopyReadStream testEnv [1, 2, 3, 4, 5] 8 0 none) 2
        = Res.ok ret1 ∧
      ZeroCopyReadFull testEnv 6 ret1.state 6 = Res.ok ret2 ∧
      ret2.state.dataOffset = 7 ∧ ret2.state.dataSize = -2 ∧ len ret2.state.buf = 8 ∧
      (ret2.state.dataSize < 10 ∧ ¬ (ret2.state.maxSize > 0 ∧ 10 > ret2.state.maxSize) ∧
        len ret2.state.buf < 10) ∧
      slice ret2.state.buf 7 (7 + (-2)) = none ∧
      spaceCheckCalls testEnv ret2.state 10 =
        [Event.malloc 10 (some [170, 170, 170, 170, 170, 170, 170, 170, 170, 170])] ∧
      spaceCheck testEnv ret2.state 10 = none ∧
      ZeroCopyReadFull testEnv 6 ret2.state 10 = Res.panic :=
  ⟨{ data := some [1, 2]
     err := none
     state :=
       { r := [4, 5]
         buf := some [1, 2, 3, 170, 170, 170, 170, 170]
         dataOffset := 2
         dataSize := 1
         defaultBufSize := 8
         maxSize := 0
         memPool := () }
     trace :=
       [Event.malloc 8 (some [170, 170, 170, 170, 170, 170, 170, 170]), Event.free none,
         Event.read 8 [1, 2, 3] none] },
   { data := some [3, 4, 5, 170, 170]
     err := some Err.ErrUnexpectedEOF
     state :=
       { r := []
         buf := some [1, 2, 3, 4, 5, 170, 170, 170]
         dataOffset := 7
         dataSize := -2
         defaultBufSize := 8
         maxSize := 0
         memPool := () }
     trace := [Event.read 5 [4, 5] none, Event.read 3 [] (some Err.EOF)] },
   by decide, by decide, by decide, by decide, by decide, by decide, by decide, by decide,
   by decide, by decide⟩

/-! ## C15: order of the pool calls -/

theorem readInto_frame {σ π : Type} (env : Env σ π) (fuel : Nat) (s : BufferRead σ π)
    (n : Int) (tr0 : List Event) (ret : Ret (BufferRead σ π))
    (h : readInto env fuel s n tr0 = Res.ok ret) :
    poolCalls ret.trace = poolCalls tr0 := by
  obtain ⟨dst, got, err, r1, tr2, _, hrun, _, _, htr, _⟩ := readInto_inv env fuel s n tr0 ret h
  obtain ⟨_, hp, _⟩ := ReadAtLeast_sound env.Read fuel s.r _ _ _ hrun
  rw [htr, poolCalls_append, hp, List.append_nil]

/-- C15 as stated fails for the sliding reader: a reader over a `bytes.Reader`
holding 1..9, built with default size 4, serves 2 bytes and then holds the
window 3,4 in a 4-byte block. The next request, for 6 bytes, replaces the block:
its pool calls are `Malloc(6)` first and `Free` of the previous block second. -/
theorem sliding_reader_mallocs_before_free :
    ∃ ret1 ret2,
      ZeroCopyReadFull bytesEnv 4
          (NewZeroCopyReadStream bytesEnv [1, 2, 3, 4, 5, 6, 7, 8, 9] 4 0 none) 2 = Res.ok ret1 ∧
      ret1.state.buf = some [1, 2, 3, 4] ∧
      ZeroCopyReadFull bytesEnv 4 ret1.state 6 = Res.ok ret2 ∧
      poolCalls ret2.trace =
        [Event.malloc 6 (some [170, 170, 170, 170, 170, 170]),
          Event.free (some [1, 2, 3, 4])] :=
  ⟨{ data := some [1, 2]
     err := none
     state :=
       { r := [5, 6, 7, 8, 9], buf := some [1, 2, 3, 4], dataOffset := 2, dataSize := 2,
         defaultBufSize := 4, maxSize := 0, memPool := () }
     trace :=
       [Event.malloc 4 (some [170, 170, 170, 170]), Event.free none,
         Event.read 4 [1, 2, 3, 4] none] },
   { data := some [3, 4, 5, 6, 7, 8]
     err := none
     state :=
       { r := [9], buf := some [3, 4, 5, 6, 7, 8], dataOffset := 6, dataSize := 0,
         defaultBufSize := 4, maxSize := 0, memPool := () }
     trace :=
       [Event.malloc 6 (some [170, 170, 170, 170, 170, 170]), Event.free (some [1, 2, 3, 4]),
         Event.read 4 [5, 6, 7, 8] none] },
   by decide, by decide, by decide, by decide⟩

/-- C15, amended: a `BufferReadFull` call that returns has made either no pool
call or, to replace its block, `Free` of the previous block followed by `Malloc`
for the replacement. A `ZeroCopyReadFull` call that returns has made either no
pool call or, to replace its block, `Malloc` for the replacement followed by
`Free` of the previous block. -/
theorem pool_call_order {σ π : Type} (env : Env σ π) (fuel : Nat)
    (b : BufferRead σ π) (n : Int) (retB : Ret (BufferRead σ π))
    (s : ZeroCopyReadStream σ π) (m : Int) (retS : Ret (ZeroCopyReadStream σ π))
    (hB : BufferReadFull env fuel b n = Res.ok retB)
    (hS : ZeroCopyReadFull env fuel s m = Res.ok retS) :
    (poolCalls retB.trace = [] ∨
      poolCalls retB.trace =
        [Event.free b.buf,
          Event.malloc (if b.defaultBufSize < n then n else b.defaultBufSize)
            (env.Malloc (env.Free b.memPool b.buf)
              (if b.defaultBufSize < n then n else b.defaultBufSize)).1]) ∧
    (poolCalls retS.trace = [] ∨
      poolCalls retS.trace =
        [Event.malloc (if m > s.defaultBufSize then m else s.defaultBufSize)
            (env.Malloc s.memPool (if m > s.defaultBufSize then m else s.defaultBufSize)).1,
          Event.free s.buf]) := by
  constructor
  · rcases BufferReadFull_inv env fuel b n retB hB with
      ⟨_, _, _, _, htr, _⟩ | ⟨_, _, hrun⟩ | ⟨_, hrun⟩
    · rw [htr]
      exact Or.inl rfl
    · rw [readInto_frame env fuel _ n _ retB hrun]
      exact Or.inr rfl
    · rw [readInto_frame env fuel _ n _ retB hrun]
      exact Or.inl rfl
  · rcases ZeroCopyReadFull_inv env fuel s m retS hS with
      ⟨_, _, _, htr, _⟩ | ⟨_, _, _, _, htr, _⟩ | ⟨_, _, s1, tr1, hsc, hfill⟩
    · rw [htr]
      exact Or.inl rfl
    · rw [htr]
      exact Or.inl rfl
    · obtain ⟨hp, _, _⟩ := fillAndServe_frame env fuel s1 m tr1 retS hfill
      obtain ⟨_, _, _, _, hcase⟩ := spaceCheck_inv env s s1 m tr1 hsc
      rw [hp]
      rcases hcase with ⟨_, _, htr1, _⟩ | ⟨_, _, htr1, _⟩ | ⟨_, htr1, _⟩
      · rw [htr1]
        exact Or.inr rfl
      · rw [htr1]
        exact Or.inl rfl
      · rw [htr1]
        exact Or.inl rfl

/-- C15 (amended) at a concrete input: both readers hold a 4-byte block and
are asked for 6 bytes. -/
theorem pool_call_order_witness :
    (BufferReadFull testEnv 6 fixedState 6 = Res.ok fixedRet ∧
      ZeroCopyReadFull testEnv 6 growState 6 = Res.ok growRet) ∧
    (poolCalls fixedRet.trace = [] ∨
      poolCalls fixedRet.trace =
        [Event.free (some [1, 2, 3, 4]), Event.malloc 6 (some [170, 170, 170, 170, 170, 170])]) ∧
    (poolCalls growRet.trace = [] ∨
      poolCalls growRet.trace =
        [Event.malloc 6 (some [170, 170, 170, 170, 170, 170]), Event.free (some [1, 2, 3, 4])]) :=
  ⟨⟨by decide, by decide⟩,
    pool_call_order testEnv 6 fixedState 6 fixedRet growState 6 growRet (by decide) (by decide)⟩

/-! ## C16: which error a call returns -/

theorem lastReadErr_pool_append (tr0 tr2 : List Event) (h : poolCalls tr0 = tr0) :
    lastReadErr (tr0 ++ tr2) = lastReadErr tr2 ∧
      bytesReceived (tr0 ++ tr2) = bytesReceived tr2 := by
  have hnone : ∀ (l : List Event), poolCalls l = l →
      l.foldl
        (fun acc e =>
          match e with
          | Event.read _ _ err => err
          | Event.malloc _ _ => acc
          | Event.free _ => acc)
        (none : Option Err) = none ∧ bytesReceived l = 0 := by
    intro l
    induction l with
    | nil => intro _; exact ⟨rfl, rfl⟩
    | cons e t ih =>
      intro hl
      cases e with
      | read k got err =>
        exfalso
        have hlen := congrArg List.length hl
        have hle := List.length_filter_le
          (fun e => match e with
            | Event.read _ _ _ => false
            | Event.malloc _ _ => true
            | Event.free _ => true) t
        simp only [poolCalls, List.filter_cons, List.length_cons] at hlen
        simp at hlen
        omega
      | malloc sz blk =>
        have ht : poolCalls t = t := by
          simpa [poolCalls, List.filter_cons] using hl
        exact ⟨by simpa [List.foldl_cons] using (ih ht).1, by simpa [bytesReceived] using (ih ht).2⟩
      | free blk =>
        have ht : poolCalls t = t := by
          simpa [poolCalls, List.filter_cons] using hl
        exact ⟨by simpa [List.foldl_cons] using (ih ht).1, by simpa [bytesReceived] using (ih ht).2⟩
  obtain ⟨h1, h2⟩ := hnone tr0 h
  constructor
  · unfold lastReadErr
    rw [List.foldl_append, h1]
  · rw [bytesReceived_append, h2, Nat.zero_add]

theorem ErrFromReads_of_ReadAtLeast {σ : Type} (Read : σ → Nat → List Byte × Option Err × σ)
    (fuel : Nat) (r : σ) (cap : Nat) (min : Int) (got : List Byte) (err : Option Err) (r1 : σ)
    (tr0 tr2 : List Event) (hcap : min ≤ ((cap : Nat) : Int)) (h0 : poolCalls tr0 = tr0)
    (h : ReadAtLeast Read fuel r cap min = some (got, err, r1, tr2)) :
    ErrFromReads min (tr0 ++ tr2) err := by
  obtain ⟨hb, _, hcase⟩ := ReadAtLeast_sound Read fuel r cap min _ h
  obtain ⟨hl, hbr⟩ := lastReadErr_pool_append tr0 tr2 h0
  simp only at hb hcase
  unfold ErrFromReads
  rw [hl, hbr, ← hb]
  rcases hcase with ⟨hshort, _⟩ | ⟨_, hge, he⟩ | ⟨_, hlt, hne, hrest⟩
  · exact absurd hcap (not_le.mpr hshort)
  · exact Or.inl ⟨hge, he⟩
  · exact Or.inr ⟨hlt, hne, hrest⟩

/-- C16 as stated fails: a fresh fixed reader over the test source holding the
single byte 7 is asked for 5 bytes. The source delivers the byte and then
returns `io.EOF`; the call returns `io.ErrUnexpectedEOF`, not the error value
the source returned. -/
theorem BufferReadFull_turns_EOF_into_ErrUnexpectedEOF :
    ∃ ret,
      BufferReadFull testEnv 5 (NewBufferRead testEnv [7] 8 0 none) 5 = Res.ok ret ∧
      ret.data = some [7] ∧
      ret.trace =
        [Event.free none, Event.malloc 8 (some [170, 170, 170, 170, 170, 170, 170, 170]),
          Event.read 5 [7] none, Event.read 4 [] (some Err.EOF)] ∧
      lastReadErr ret.trace = some Err.EOF ∧
      ret.err = some Err.ErrUnexpectedEOF ∧ ret.err ≠ some Err.EOF :=
  ⟨{ data := some [7]
     err := some Err.ErrUnexpectedEOF
     state :=
       { r := [], buf := some [7, 170, 170, 170, 170, 170, 170, 170], defaultBufSize := 8,
         maxSize := 0, memPool := () }
     trace :=
       [Event.free none, Event.malloc 8 (some [170, 170, 170, 170, 170, 170, 170, 170]),
         Event.read 5 [7] none, Event.read 4 [] (some Err.EOF)] },
   by decide, by decide, by decide, by decide, by decide, by decide⟩

/-- C16, amended: a call of either reader that returns either took the
size-limit exit (size-limit error, no read), or its error is related to its
reads by `ErrFromReads`: nil when the bytes received reach the count the call
had to receive (`n` for `BufferReadFull`, `n - dataSize` for
`ZeroCopyReadFull`, whose pool honours its contract); otherwise the error value
of the source's last read, with `io.EOF` after at least one received byte
returned as `io.ErrUnexpectedEOF`. -/
theorem returned_error_from_last_read {σ π : Type} (env : Env σ π) (hpool : PoolOk env)
    (fuel : Nat) (b : BufferRead σ π) (n : Int) (retB : Ret (BufferRead σ π))
    (s : ZeroCopyReadStream σ π) (m : Int) (retS : Ret (ZeroCopyReadStream σ π))
    (hB : BufferReadFull env fuel b n = Res.ok retB)
    (hS : ZeroCopyReadFull env fuel s m = Res.ok retS) :
    ((retB.err = some (Err.sizeLimit n b.maxSize) ∧ retB.trace = []) ∨
      ErrFromReads n retB.trace retB.err) ∧
    ((retS.err = some (Err.sizeLimit m s.maxSize) ∧ retS.trace = []) ∨
      ErrFromReads (m - s.dataSize) retS.trace retS.err) := by
  constructor
  · have hread : ∀ (b1 : BufferRead σ π) (tr0 : List Event), poolCalls tr0 = tr0 →
        readInto env fuel b1 n tr0 = Res.ok retB → ErrFromReads n retB.trace retB.err := by
      intro b1 tr0 h0 hrun
      obtain ⟨dst, got, err, r1, tr2, hdst, hral, _, he, htr, _⟩ :=
        readInto_inv env fuel b1 n tr0 retB hrun
      obtain ⟨_, _, _, hl⟩ := slice_inv hdst
      have hn : (((blockBytes dst).length : Nat) : Int) = n := by omega
      rw [he, htr, ← hn]
      exact ErrFromReads_of_ReadAtLeast env.Read fuel b1.r _ _ got err r1 tr0 tr2 (le_refl _)
        h0 hral
    rcases BufferReadFull_inv env fuel b n retB hB with
      ⟨_, _, _, he, htr, _⟩ | ⟨_, _, hrun⟩ | ⟨_, hrun⟩
    · exact Or.inl ⟨he, htr⟩
    · exact Or.inr (hread _ _ rfl hrun)
    · exact Or.inr (hread _ _ rfl hrun)
  · rcases ZeroCopyReadFull_inv env fuel s m retS hS with
      ⟨hfast, _, he, htr, _⟩ | ⟨_, _, _, he, htr, _⟩ | ⟨hslow, _, s1, tr1, hsc, hfill⟩
    · refine Or.inr (Or.inl ⟨?_, he⟩)
      rw [htr]
      simp only [bytesReceived, Nat.cast_zero]
      omega
    · exact Or.inl ⟨he, htr⟩
    · obtain ⟨dst, got, err, r1, tr2, hdst, hral, _, he, htr, _⟩ :=
        fillAndServe_inv env fuel s1 m tr1 retS hfill
      obtain ⟨_, hz, _, _, hcase⟩ := spaceCheck_inv env s s1 m tr1 hsc
      obtain ⟨_, _, _, hl⟩ := slice_inv hdst
      have hroom : s1.dataOffset + m ≤ len s1.buf ∧ poolCalls tr1 = tr1 := by
        rcases hcase with ⟨_, _, htr1, _, ho, w, _, hb⟩ | ⟨_, hfit, htr1, _, ho, w, _, hb⟩ |
          ⟨hfit, htr1, hs1⟩
        · have hns : m ≤ (if m > s.defaultBufSize then m else s.defaultBufSize) := by
            split <;> omega
          have := le_trans hns (hpool s.memPool _)
          rw [ho, hb, len_copy, htr1]
          exact ⟨by omega, rfl⟩
        · rw [ho, hb, len_copy, htr1]
          exact ⟨by omega, rfl⟩
        · rw [hs1, htr1]
          exact ⟨by omega, rfl⟩
      refine Or.inr ?_
      rw [he, htr, ← hz]
      exact ErrFromReads_of_ReadAtLeast env.Read fuel s1.r _ _ got err r1 tr1 tr2 (by omega)
        hroom.2 hral

/-- C16 (amended) at a concrete input: both readers hold a 4-byte block and
are asked for 6 bytes over the test source holding 5,6,7,8,9. -/
theorem returned_error_from_last_read_witness :
    (BufferReadFull testEnv 6 fixedState 6 = Res.ok fixedRet ∧
      ZeroCopyReadFull testEnv 6 growState 6 = Res.ok growRet) ∧
    ((fixedRet.err = some (Err.sizeLimit 6 fixedState.maxSize) ∧ fixedRet.trace = []) ∨
      ErrFromReads 6 fixedRet.trace fixedRet.err) ∧
    ((growRet.err = some (Err.sizeLimit 6 growState.maxSize) ∧ growRet.trace = []) ∨
      ErrFromReads (6 - growState.dataSize) growRet.trace growRet.err) :=
  ⟨⟨by decide, by decide⟩,
    returned_error_from_last_read testEnv testEnv_PoolOk 6 fixedState 6 fixedRet growState 6
      growRet (by decide) (by decide)⟩

/-! ## C17 and C18: the fill step -/

/-- After the space check, in a state satisfying the window invariant and with
a pool that honours its contract, the fill step finds room for the missing
bytes. -/
theorem spaceCheck_room {σ π : Type} (env : Env σ π) (hpool : PoolOk env)
    (s s1 : ZeroCopyReadStream σ π) (n : Int) (tr1 : List Event) (hinv : WindowInv s)
    (hn : s.dataSize < n) (hsc : spaceCheck env s n = some (s1, tr1)) :
    0 ≤ s1.dataOffset ∧ s1.dataSize = s.dataSize ∧ s1.dataOffset + n ≤ len s1.buf ∧
      s1.r = s.r ∧ poolCalls tr1 = tr1 := by
  obtain ⟨s2, tr2, hsc2, _, hz, ho, hroom, hr, _⟩ := spaceCheck_ok env hpool s n hinv hn
  rw [hsc] at hsc2
  simp only [Option.some.injEq, Prod.mk.injEq] at hsc2
  obtain ⟨hs, _⟩ := hsc2
  subst hs
  obtain ⟨_, _, _, _, hcase⟩ := spaceCheck_inv env s s1 n tr1 hsc
  refine ⟨ho, hz, hroom, hr, ?_⟩
  rcases hcase with ⟨_, _, htr1, _⟩ | ⟨_, _, htr1, _⟩ | ⟨_, htr1, _⟩ <;> rw [htr1] <;> rfl

/-- C17: in a state satisfying the window invariant, with a pool that honours
its contract and whatever the source does, a call `ZeroCopyReadFull(n)` with
`n ≥ 0` that returns a nil error leaves a state satisfying the window
invariant, returns a slice of length exactly `n`, and leaves
`dataSize = old dataSize + bytes received from the source in the call − n`. -/
theorem nil_error_preserves_WindowInv {σ π : Type} (env : Env σ π) (hpool : PoolOk env)
    (fuel : Nat) (s : ZeroCopyReadStream σ π) (n : Int) (ret : Ret (ZeroCopyReadStream σ π))
    (hinv : WindowInv s) (hn : 0 ≤ n) (h : ZeroCopyReadFull env fuel s n = Res.ok ret)
    (he : ret.err = none) :
    WindowInv ret.state ∧ len ret.data = n ∧
      ret.state.dataSize = s.dataSize + ((bytesReceived ret.trace : Nat) : Int) - n := by
  have hinv' := hinv
  obtain ⟨h0, h1, h2⟩ := hinv
  rcases ZeroCopyReadFull_inv env fuel s n ret h with
    ⟨hfast, hout, _, htr, hst⟩ | ⟨_, _, _, herr, _, _⟩ | ⟨hslow, _, s1, tr1, hsc, hfill⟩
  · obtain ⟨_, _, _, hl⟩ := slice_inv hout
    rw [hst, htr]
    refine ⟨⟨by simp only; omega, by simp only; omega, by simp only; omega⟩, ?_, ?_⟩
    · unfold len
      omega
    · simp only [bytesReceived, Nat.cast_zero]
      omega
  · rw [herr] at he
    cases he
  · obtain ⟨ho1, hz1, hroom1, _, hp1⟩ := spaceCheck_room env hpool s s1 n tr1 hinv' hslow hsc
    obtain ⟨dst, got, err, r1, tr2, hdst, hral, hout, herr, htr, hst⟩ :=
      fillAndServe_inv env fuel s1 n tr1 ret hfill
    obtain ⟨hb, _, hcase⟩ := ReadAtLeast_sound env.Read fuel s1.r _ _ _ hral
    have hg : got.length ≤ (blockBytes dst).length :=
      ReadAtLeast_length_le env.Read fuel s1.r _ _ _ hral
    obtain ⟨hd0, hd1, _, hdl⟩ := slice_inv hdst
    simp only at hb hcase
    rw [herr] at he
    have hge : n - s1.dataSize ≤ ((got.length : Nat) : Int) := by
      rcases hcase with ⟨_, hsb, _⟩ | ⟨_, hge, _⟩ | ⟨_, _, hne, hrest⟩
      · rw [he] at hsb
        cases hsb
      · exact hge
      · rcases hrest with ⟨_, _, hu⟩ | ⟨_, hu⟩
        · rw [he] at hu
          cases hu
        · exact absurd (he ▸ hu).symm hne
    have hosize : (if s1.dataSize + ((got.length : Nat) : Int) + ((got.length : Nat) : Int) > n
        then n else s1.dataSize + ((got.length : Nat) : Int) + ((got.length : Nat) : Int))
        = n := by
      rw [if_pos (by omega)]
    rw [hosize] at hout hst
    have hlw : len (writeAt s1.buf (s1.dataOffset + s1.dataSize).toNat got) = len s1.buf := by
      apply len_writeAt
      unfold len at hd1 hdl
      omega
    obtain ⟨_, _, _, hl⟩ := slice_inv hout
    obtain ⟨_, hbr⟩ := lastReadErr_pool_append tr1 tr2 hp1
    rw [hst, htr, hbr, ← hb]
    refine ⟨⟨by simp only; omega, by simp only; omega, ?_⟩, ?_, ?_⟩
    · simp only [hlw]
      unfold len at hdl ⊢
      omega
    · unfold len
      omega
    · simp only
      omega

/-- C17 at a concrete input: the window 3,4 sits in a 4-byte block and 6 bytes
are requested over the test source holding 5,6,7,8,9. -/
theorem nil_error_preserves_WindowInv_witness :
    (ZeroCopyReadFull testEnv 6 growState 6 = Res.ok growRet ∧ growRet.err = none) ∧
    WindowInv growRet.state ∧ len growRet.data = 6 ∧
      growRet.state.dataSize
        = growState.dataSize + ((bytesReceived growRet.trace : Nat) : Int) - 6 :=
  ⟨⟨by decide, by decide⟩,
    nil_error_preserves_WindowInv testEnv testEnv_PoolOk 6 growState 6 growRet (by decide)
      (by decide) (by decide) (by decide)⟩

/-- C18: in a state satisfying the window invariant, for a request `n` larger
than the window that passes the size check, with a pool that honours its
contract, the call goes through the space check to the fill step; there the
slice expression `buf[dataOffset+dataSize:]` is in range, the destination it
yields is at least `n - dataSize > 0` long, and `io.ReadAtLeast` does not take
its short-buffer exit (which returns `io.ErrShortBuffer` without reading). -/
theorem fill_has_room {σ π : Type} (env : Env σ π) (hpool : PoolOk env) (fuel : Nat)
    (s : ZeroCopyReadStream σ π) (n : Int) (hinv : WindowInv s) (hn : s.dataSize < n)
    (hlim : ¬ (s.maxSize > 0 ∧ n > s.maxSize)) :
    ∃ s1 tr1 dst, spaceCheck env s n = some (s1, tr1) ∧
      ZeroCopyReadFull env fuel s n = fillAndServe env fuel s1 n tr1 ∧
      sliceFrom s1.buf (s1.dataOffset + s1.dataSize) = some dst ∧
      0 < n - s1.dataSize ∧ n - s1.dataSize ≤ len dst ∧
      ReadAtLeast env.Read fuel s1.r (blockBytes dst).length (n - s1.dataSize)
        ≠ some ([], some Err.ErrShortBuffer, s1.r, []) := by
  obtain ⟨s1, tr1, hsc, _, hz, ho, hroom, _⟩ := spaceCheck_ok env hpool s n hinv hn
  have hz0 : 0 ≤ s.dataSize := hinv.2.1
  obtain ⟨dst, hdst⟩ : ∃ dst, sliceFrom s1.buf (s1.dataOffset + s1.dataSize) = some dst :=
    ⟨_, slice_eq_some (by omega) (by omega) (le_refl _)⟩
  obtain ⟨_, _, _, hl⟩ := slice_inv hdst
  have hlen : n - s1.dataSize ≤ len dst := by
    unfold len
    omega
  refine ⟨s1, tr1, dst, hsc, ?_, hdst, by omega, hlen, ?_⟩
  · unfold ZeroCopyReadFull
    rw [if_neg (not_le.mpr hn), if_neg hlim, hsc]
  · intro hbad
    obtain ⟨_, _, hcase⟩ := ReadAtLeast_sound env.Read fuel s1.r _ _ _ hbad
    simp only at hcase
    unfold len at hlen
    rcases hcase with ⟨hshort, _⟩ | ⟨_, hge, _⟩ | ⟨_, _, hne, _⟩
    · omega
    · simp only [List.length_nil, Nat.cast_zero] at hge
      omega
    · exact hne rfl

/-- C18 at a concrete input: the window 3,4 sits in a 4-byte block and 6 bytes
are requested, without a size limit. -/
theorem fill_has_room_witness :
    ∃ s1 tr1 dst, spaceCheck testEnv growState 6 = some (s1, tr1) ∧
      ZeroCopyReadFull testEnv 6 growState 6 = fillAndServe testEnv 6 s1 6 tr1 ∧
      sliceFrom s1.buf (s1.dataOffset + s1.dataSize) = some dst ∧
      0 < 6 - s1.dataSize ∧ 6 - s1.dataSize ≤ len dst ∧
      ReadAtLeast testEnv.Read 6 s1.r (blockBytes dst).length (6 - s1.dataSize)
        ≠ some ([], some Err.ErrShortBuffer, s1.r, []) :=
  fill_has_room testEnv testEnv_PoolOk 6 growState 6 (by decide) (by decide) (by decide)

end Zcstream
